import Mathlib

/-!
# Verification of `cf-scripts` core modules

A shallow embedding of `conda_forge_tick/migration_runner.py` and
`conda_forge_tick/feedstock_parser.py`, together with theorems settling the
specification claims about them.

Python values are modelled by the inductive type `PyVal`; Python `dict`s are
association lists with unique keys maintained by `setKey`; Python exceptions
are modelled by `PyExc` and fallible code returns `Except PyExc _`.
-/

namespace CfScripts

/-- Model of a Python value as it appears in the parsed-recipe / node-attrs
data.  `strset` models a Python `set` of strings and `reqdict` models a
requirements bundle (`dict` mapping section name to a set of names); both
occur as values stored in the feedstock record. -/
inductive PyVal where
  | none
  | bool (b : Bool)
  | int (n : Int)
  | str (s : String)
  | list (xs : List PyVal)
  | dict (entries : List (String × PyVal))
  | strset (s : Finset String)
  | reqdict (d : List (String × Finset String))

mutual

/-- Boolean equality test for `PyVal` (deriving is unavailable for this
nested inductive, so the instance is built by hand). -/
def pyValBEq : PyVal → PyVal → Bool
  | .none, .none => true
  | .bool x, .bool y => decide (x = y)
  | .int x, .int y => decide (x = y)
  | .str x, .str y => decide (x = y)
  | .list xs, .list ys => pyValListBEq xs ys
  | .dict xs, .dict ys => pyValEntriesBEq xs ys
  | .strset x, .strset y => decide (x = y)
  | .reqdict x, .reqdict y => decide (x = y)
  | _, _ => false

def pyValListBEq : List PyVal → List PyVal → Bool
  | [], [] => true
  | x :: xs, y :: ys => pyValBEq x y && pyValListBEq xs ys
  | _, _ => false

def pyValEntriesBEq : List (String × PyVal) → List (String × PyVal) → Bool
  | [], [] => true
  | (k, x) :: xs, (l, y) :: ys =>
    decide (k = l) && pyValBEq x y && pyValEntriesBEq xs ys
  | _, _ => false

end

/-- A Python `dict` with string keys (also used for the feedstock record). -/
abbrev Dict := List (String × PyVal)

/-- Lookup in a dict: first entry with the given key (keys are unique when
the dict is built by `setKey`). Models `d.get(k)` / `d[k]`. -/
def lookupD : Dict → String → Option PyVal
  | [], _ => Option.none
  | (k', v) :: rest, k => if k' = k then some v else lookupD rest k

/-- `d[k] = v` on a Python dict: overwrite in place keeping the key's
position if present, else append at the end. -/
def setKey : Dict → String → PyVal → Dict
  | [], k, v => [(k, v)]
  | (k', v') :: rest, k, v =>
    if k' = k then (k, v) :: rest else (k', v') :: setKey rest k v

/-- `del d[k]` (removes every entry with key `k`; keys are unique anyway). -/
def delKey (d : Dict) (k : String) : Dict :=
  d.filter (fun e => !(e.1 = k))

/-- `d.get(k, dflt)`. -/
def getD (d : Dict) (k : String) (dflt : PyVal) : PyVal :=
  (lookupD d k).getD dflt

/-- `k in d` for a Python dict. -/
def hasKey (d : Dict) (k : String) : Bool :=
  (lookupD d k).isSome

/-- Python truthiness (`bool(v)`) for the modelled values. -/
def pyTruthy : PyVal → Bool
  | .none => false
  | .bool b => b
  | .int n => n != 0
  | .str s => s != ""
  | .list xs => !xs.isEmpty
  | .dict d => !d.isEmpty
  | .strset s => s.card != 0
  | .reqdict d => !d.isEmpty

/-- The kinds of Python exception the embedded code can raise. -/
inductive ExcKind where
  | notImplementedError
  | typeError
  | attributeError
  | keyError
  | valueError
  | renderError
deriving DecidableEq, Repr

/-- A Python exception: a kind, the exception text (`str(e)`), and the
formatted traceback that `traceback.format_exc()` would produce for it
(kept opaque: exceptions raised by the embedded code itself carry `""`). -/
structure PyExc where
  kind : ExcKind
  msg : String
  trb : String
deriving DecidableEq, Repr

/-- `v or dflt` on Python values. -/
def pyOr (v dflt : PyVal) : PyVal := if pyTruthy v then v else dflt

/-- Require a Python `str` (a non-`str` here raises `TypeError`). -/
def expectStr : PyVal → Except PyExc String
  | .str s => .ok s
  | _ => .error ⟨.typeError, "expected str", ""⟩

/-- Require a Python `list` (a non-`list` here raises `TypeError`). -/
def expectList : PyVal → Except PyExc (List PyVal)
  | .list xs => .ok xs
  | _ => .error ⟨.typeError, "expected list", ""⟩

/-- `pat in s` for Python strings (substring test). -/
def strContains (s pat : String) : Bool := decide (pat.data <:+: s.data)

/-- First-occurrence deduplication (used to model insertion-ordered
Python dict keys). -/
def dedupFirst [DecidableEq α] (xs : List α) : List α :=
  xs.foldl (fun acc k => if k ∈ acc then acc else acc ++ [k]) []

/-! ### Character-level models of the Python string operations

Lean's byte-offset `String` functions do not reduce in the kernel, so the
embedding uses its own character-level equivalents of `str.replace`,
`str.split`, `str.endswith` and string comparison. -/

/-- Fuel-driven worker for `pyReplace` (the fuel is the input length, which
bounds the number of steps). -/
def replaceFuel (pat rep : List Char) : Nat → List Char → List Char
  | 0, l => l
  | _ + 1, [] => []
  | fuel + 1, c :: rest =>
    if pat ≠ [] ∧ pat.isPrefixOf (c :: rest) then
      rep ++ replaceFuel pat rep fuel (List.drop (pat.length - 1) rest)
    else c :: replaceFuel pat rep fuel rest

/-- `s.replace(pat, rep)`: replace all non-overlapping occurrences, left to
right (for a non-empty pattern). -/
def pyReplace (s pat rep : String) : String :=
  String.mk (replaceFuel pat.data rep.data s.data.length s.data)

/-- Fuel-driven worker for `pySplit`. -/
def pySplitFuel (sep : List Char) : Nat → List Char → List Char → List String
  | 0, acc, l => [String.mk (acc ++ l)]
  | _ + 1, acc, [] => [String.mk acc]
  | fuel + 1, acc, c :: rest =>
    if sep.isPrefixOf (c :: rest) then
      String.mk acc :: pySplitFuel sep fuel [] (List.drop (sep.length - 1) rest)
    else pySplitFuel sep fuel (acc ++ [c]) rest

/-- `s.split(sep)` for a non-empty separator. -/
def pySplit (s sep : String) : List String :=
  pySplitFuel sep.data s.data.length [] s.data

/-- `s.endswith(suffix)`. -/
def pyEndsWith (s suffix : String) : Bool :=
  suffix.data.isSuffixOf s.data

/-- Strict lexicographic comparison of character lists (Python `str` `<`). -/
def charListLt : List Char → List Char → Bool
  | [], [] => false
  | [], _ :: _ => true
  | _ :: _, [] => false
  | a :: as, b :: bs => if a = b then charListLt as bs else decide (a < b)

/-- Python string `<=`. -/
def pyStrLe (a b : String) : Bool := !charListLt b.data a.data

/-- The largest string of a list under the lexicographic order (used for
`sorted(...)[-1]`-style selections). -/
def maxStrList (l : List String) : Option String :=
  l.foldl (fun acc k => match acc with
    | Option.none => some k
    | some m => if charListLt m.data k.data then some k else some m) Option.none

/-- Insert `x` after every already-placed element `y` with `le y x` —
the insertion step of a stable insertion sort. -/
def insertSorted (le : α → α → Bool) (x : α) : List α → List α
  | [] => [x]
  | y :: ys => if le y x then y :: insertSorted le x ys else x :: y :: ys

/-- Stable ascending sort (models Python `sorted`, which is stable). -/
def stableSort (le : α → α → Bool) (xs : List α) : List α :=
  xs.foldl (fun acc x => insertSorted le x acc) []

/-! ## migration_runner.py -/

/-- `conda_forge_tick.contexts.FeedstockContext` (external to `src/`):
a named record holding the package name, feedstock name, the (shared,
mutable) node attributes and the default branch.  The attribute payload is
kept abstract in `σ`. -/
structure FeedstockContext (σ : Type) where
  package_name : String
  feedstock_name : String
  attrs : σ
  default_branch : String

/-- The `data` dict assembled by `run_migration_local`: every field starts
as `None` and is filled in as the corresponding step runs. -/
structure DispatchResult (α : Type) where
  migrate_return_value : Option α
  commit_message : Option String
  pr_title : Option String
  pr_body : Option String
deriving DecidableEq

/-- Observable calls made to the migrator by `run_migration_local`
(the hook call-counter of the spec). -/
inductive MigEvent where
  | preHook
  | migrateStep
  | postHook
deriving DecidableEq, Repr

/-- A migrator, kept abstract: the three hook/step callables mutating the
node attributes (`σ → σ` models in-place mutation of `attrs`), the
migration step returning a value of type `α`, and the three message
builders reading the (possibly mutated) context.  `truthy` models Python
truthiness of the migration step's return value. -/
structure Migrator (σ α : Type) where
  run_pre_piggyback_migrations : String → σ → σ
  migrate : String → σ → α × σ
  run_post_piggyback_migrations : String → σ → σ
  commit_message : FeedstockContext σ → String
  pr_body : FeedstockContext σ → String
  pr_title : FeedstockContext σ → String
  truthy : α → Bool

/-- `run_migration_local` (migration_runner.py lines 107-146).  Returns the
`data` dict, the final node attributes, and the trace of migrator calls. -/
def run_migration_local (migrator : Migrator σ α)
    (feedstock_dir package_name feedstock_name : String) (node_attrs : σ)
    (default_branch : String) : DispatchResult α × σ × List MigEvent :=
  let feedstock_ctx : FeedstockContext σ :=
    { package_name := package_name, feedstock_name := feedstock_name,
      attrs := node_attrs, default_branch := default_branch }
  let recipe_dir := feedstock_dir ++ "/recipe"
  let data : DispatchResult α := ⟨Option.none, Option.none, Option.none, Option.none⟩
  let attrs1 := migrator.run_pre_piggyback_migrations recipe_dir feedstock_ctx.attrs
  let step := migrator.migrate recipe_dir attrs1
  let rv := step.1
  let attrs2 := step.2
  let data := { data with migrate_return_value := some rv }
  if !migrator.truthy rv then
    (data, attrs2, [.preHook, .migrateStep])
  else
    let attrs3 := migrator.run_post_piggyback_migrations recipe_dir attrs2
    let ctx := { feedstock_ctx with attrs := attrs3 }
    let data := { data with commit_message := some (migrator.commit_message ctx) }
    let data := { data with pr_body := some (migrator.pr_body ctx) }
    let data := { data with pr_title := some (migrator.pr_title ctx) }
    (data, attrs3, [.preHook, .migrateStep, .postHook])

/-- `run_migration_containerized` (migration_runner.py lines 46-104): the
body is commented out and the function unconditionally raises
`NotImplementedError`. -/
def run_migration_containerized (_migrator : Migrator σ α)
    (_feedstock_dir _package_name _feedstock_name : String) (_node_attrs : σ)
    (_default_branch : String) :
    Except PyExc (DispatchResult α × σ × List MigEvent) :=
  .error ⟨.notImplementedError, "Containerized migrations are not yet implemented!", ""⟩

/-- `run_migration` (migration_runner.py lines 9-43).  `in_container`
models `os.environ.get("CF_TICK_IN_CONTAINER", "false") == "true"`;
`use_container` is `None` or an explicit boolean (the Python default is
`False`). -/
def run_migration (migrator : Migrator σ α)
    (feedstock_dir package_name feedstock_name : String) (node_attrs : σ)
    (default_branch : String) (use_container : Option Bool)
    (in_container : Bool) :
    Except PyExc (DispatchResult α × σ × List MigEvent) :=
  let uc := match use_container with
    | Option.none => !in_container
    | some b => b
  if uc && !in_container then
    run_migration_containerized migrator feedstock_dir package_name
      feedstock_name node_attrs default_branch
  else
    .ok (run_migration_local migrator feedstock_dir package_name
      feedstock_name node_attrs default_branch)

/-! ## feedstock_parser.py : pin stripping -/

/-- `PIN_SEP_PAT = re.compile(r" |>|<|=|\[")` (line 35): is `c` one of the
pin separators? -/
def pin_sep_char (c : Char) : Bool :=
  c = ' ' || c = '>' || c = '<' || c = '=' || c = '['

/-- The ASCII upper-to-lower character table. -/
def upperLowerPairs : List (Char × Char) :=
  [('A', 'a'), ('B', 'b'), ('C', 'c'), ('D', 'd'), ('E', 'e'), ('F', 'f'),
   ('G', 'g'), ('H', 'h'), ('I', 'i'), ('J', 'j'), ('K', 'k'), ('L', 'l'),
   ('M', 'm'), ('N', 'n'), ('O', 'o'), ('P', 'p'), ('Q', 'q'), ('R', 'r'),
   ('S', 's'), ('T', 't'), ('U', 'u'), ('V', 'v'), ('W', 'w'), ('X', 'x'),
   ('Y', 'y'), ('Z', 'z')]

/-- ASCII model of Python `str.lower()` on one character (recipe names are
ASCII). -/
def py_lower_char (c : Char) : Char :=
  match upperLowerPairs.find? (fun p => p.1 = c) with
  | some p => p.2
  | Option.none => c

/-- ASCII model of Python `str.lower()`. -/
def py_lower (s : String) : String := String.mk (s.data.map py_lower_char)

/-- `PIN_SEP_PAT.split(x)[0]` : the prefix of `x` before the first pin
separator. -/
def pin_split_head (x : String) : String :=
  String.mk (x.data.takeWhile (fun c => !pin_sep_char c))

/-- `PIN_SEP_PAT.split(x)[0].lower()`. -/
def pin_name (x : String) : String := py_lower (pin_split_head x)

/-! ## feedstock_parser.py : requirement extraction -/

/-- `as_iterable` (from `conda_forge_tick.utils`, which is not under
`src/`).  Modelled from the spec: section values are read as sub-lists
(§4.1 "read `build`/`host`/`run` sub-lists (missing → empty)"); a list is
used as is and any other value is wrapped as a one-element list. -/
def as_iterable : PyVal → List PyVal
  | .list xs => xs
  | v => [v]

/-- `defaultdict(set)` content: get-or-create the key, then append the
given (already hash-checked) entries.  Entries are accumulated as a list;
they are deduplicated when the final sets are built, which yields the same
sets. -/
def ddUpdate (d : List (String × List PyVal)) (k : String) (xs : List PyVal) :
    List (String × List PyVal) :=
  match d with
  | [] => [(k, xs)]
  | (k', vs) :: rest =>
    if k' = k then (k, vs ++ xs) :: rest else (k', vs) :: ddUpdate rest k xs

/-- Python hashability: `list`, `dict` and `set` values are unhashable, so
adding one to a set raises `TypeError`. -/
def pyHashable : PyVal → Bool
  | .list _ => false
  | .dict _ => false
  | .strset _ => false
  | .reqdict _ => false
  | _ => true

/-- The Python type name, for `TypeError` messages. -/
def pyTypeName : PyVal → String
  | .none => "NoneType"
  | .bool _ => "bool"
  | .int _ => "int"
  | .str _ => "str"
  | .list _ => "list"
  | .dict _ => "dict"
  | .strset _ => "set"
  | .reqdict _ => "dict"

/-- `requirements_dict[k].update(...)` (and `set(req)` on line 122): every
entry is hashed as it is added, so the first unhashable entry raises
`TypeError`; on success the entries are accumulated for the final set
construction. -/
def ddUpdateH (d : List (String × List PyVal)) (k : String) (xs : List PyVal) :
    Except PyExc (List (String × List PyVal)) :=
  match xs.find? (fun x => !pyHashable x) with
  | some x => Except.error ⟨.typeError, "unhashable type: " ++ pyTypeName x, ""⟩
  | Option.none => Except.ok (ddUpdate d k xs)

/-- One iteration of the `for block in metas` loop in
`_extract_requirements` (lines 119-133).  Every `set`/`set.update` call
hashes the entries it adds (`ddUpdateH`), so an unhashable entry raises
`TypeError` at exactly the update the code performs, in source order. -/
def extractBlock (st : List (String × List PyVal) × Bool) (block : PyVal) :
    Except PyExc (List (String × List PyVal) × Bool) :=
  match block with
  | .dict bd =>
    match pyOr (getD bd "requirements" (.dict [])) (.dict []) with
    | .list xs =>
      -- `requirements_dict["run"].update(set(req)); continue`
      (match ddUpdateH st.1 "run" xs with
      | .error e => .error e
      | .ok acc => Except.ok (acc, st.2))
    | .dict rd =>
      match ddUpdateH st.1 "build"
          (as_iterable (pyOr (getD rd "build" (.list [])) (.list []))) with
      | .error e => .error e
      | .ok acc =>
        match ddUpdateH acc "host"
            (as_iterable (pyOr (getD rd "host" (.list [])) (.list []))) with
        | .error e => .error e
        | .ok acc =>
          match ddUpdateH acc "run"
              (as_iterable (pyOr (getD rd "run" (.list [])) (.list []))) with
          | .error e => .error e
          | .ok acc =>
            -- `test = block.get("test", {})` (note: no `or {}` here)
            match getD bd "test" (.dict []) with
            | .dict td =>
              (match expectList (pyOr (getD td "requirements" (.list [])) (.list [])) with
              | .error e => .error e
              | .ok treq =>
                match ddUpdateH acc "test" treq with
                | .error e => .error e
                | .ok acc =>
                  match expectList (pyOr (getD td "requires" (.list [])) (.list [])) with
                  | .error e => .error e
                  | .ok trqs =>
                    match ddUpdateH acc "test" trqs with
                    | .error e => .error e
                    | .ok acc =>
                      match pyOr (getD bd "build" (.dict [])) (.dict []) with
                      | .dict bdd =>
                        Except.ok (acc, st.2 ||
                          (match getD bdd "run_exports" (.dict []) with
                            | .dict red => pyTruthy (getD red "strong" .none)
                            | _ => false))
                      | _ => .error ⟨.attributeError, "build has no attribute get", ""⟩)
            | _ => .error ⟨.attributeError, "test has no attribute get", ""⟩
    | _ => .error ⟨.attributeError, "requirements has no attribute get", ""⟩
  | _ => .error ⟨.attributeError, "block has no attribute get", ""⟩

/-- The `{v for v in requirements_dict[k] if v}` truthiness filter followed
by the string conversion the pin-stripping comprehension forces (a
non-`str` surviving entry makes `PIN_SEP_PAT.split(x)` raise). -/
def finalizeSection (vs : List PyVal) : Except PyExc (List String) := do
  let kept := vs.filter pyTruthy
  kept.mapM expectStr

/-- One step of the keep-filter in lines 111-115: append the output when
its `name` is in the keep set (`output.get("name")` requires a mapping). -/
def keepFilterStep (keepSet : Finset String) (acc : List PyVal) (o : PyVal) :
    Except PyExc (List PyVal) := do
  let od ← match o with
    | .dict od => Except.ok od
    | _ => Except.error ⟨.attributeError, "output has no attribute get", ""⟩
  let keepIt := match getD od "name" .none with
    | .str n => decide (n ∈ keepSet)
    | _ => false
  Except.ok (if keepIt then acc ++ [o] else acc)

/-- Apply `finalizeSection` to one accumulated section of the
requirements dict. -/
def finalizeEntry (kv : String × List PyVal) :
    Except PyExc (String × List String) := do
  let strs ← finalizeSection kv.2
  Except.ok (kv.1, strs)

/-- Lines 111-117 of `_extract_requirements`: the blocks to process — the
outputs matching a truthy `outputs_to_keep`, or the root recipe followed by
all its outputs. -/
def extractMetas (meta_yaml : Dict) (outputs_to_keep : Option (Finset String)) :
    Except PyExc (List PyVal) := do
  let keep := match outputs_to_keep with
    | some s => if s.card ≠ 0 then some s else Option.none
    | Option.none => Option.none
  match keep with
  | some keepSet => do
    let outs ← expectList (pyOr (getD meta_yaml "outputs" (.list [])) (.list []))
    outs.foldlM (keepFilterStep keepSet) ([] : List PyVal)
  | Option.none => do
    -- `metas = [meta_yaml] + meta_yaml.get("outputs", []) or []`
    -- (binds as `([meta_yaml] + get(...)) or []`, so a non-list
    -- `outputs` value raises `TypeError`)
    let outs ← expectList (getD meta_yaml "outputs" (.list []))
    Except.ok (PyVal.dict meta_yaml :: outs)

/-- `_extract_requirements` (feedstock_parser.py lines 107-140).  Returns
`(requirements_dict, req_no_pins, strong_exports)`. -/
def _extract_requirements (meta_yaml : Dict)
    (outputs_to_keep : Option (Finset String)) :
    Except PyExc (List (String × Finset String) × List (String × Finset String) × Bool) := do
  let metas ← extractMetas meta_yaml outputs_to_keep
  let st ← metas.foldlM extractBlock ([], false)
  let fin ← st.1.mapM finalizeEntry
  let raw := fin.map (fun kv => (kv.1, kv.2.toFinset))
  let no_pins := fin.map (fun kv => (kv.1, (kv.2.map pin_name).toFinset))
  Except.ok (raw, no_pins, st.2)

/-- `_parse_requirements` (lines 86-104). -/
def _parse_requirements (req : PyVal) (build host run : Bool) :
    Except PyExc (Finset String) := do
  if !pyTruthy req then
    Except.ok ∅
  else
    let reqlist ← match req with
      | .list xs =>
        Except.ok (if host || run then xs else [])
      | .dict rd =>
        Except.ok
          ((if build then as_iterable (pyOr (getD rd "build" (.list [])) (.list [])) else []) ++
           (if host then as_iterable (pyOr (getD rd "host" (.list [])) (.list [])) else []) ++
           (if run then as_iterable (pyOr (getD rd "run" (.list [])) (.list [])) else []))
      | _ => Except.error ⟨.attributeError, "requirements has no attribute get", ""⟩
    let kept := reqlist.filter (fun x => !pyValBEq x PyVal.none)
    let strs ← kept.mapM expectStr
    Except.ok (strs.map pin_name).toFinset

/-- `_get_requirements` (lines 44-83), with the default flags used by
`populate_feedstock_attributes`. -/
def _get_requirements (meta_yaml : Dict) (outputs : Bool)
    (build host run : Bool) (outputs_to_keep : Option (Finset String)) :
    Except PyExc (Finset String) := do
  let keep := match outputs_to_keep with
    | some s => if s.card ≠ 0 then some s else Option.none
    | Option.none => Option.none
  match keep with
  | some keepSet => do
    let outs ←
      if outputs then
        expectList (pyOr (getD meta_yaml "outputs" (.list [])) (.list []))
      else Except.ok []
    outs.foldlM (fun reqs o => do
      let od ← match o with
        | .dict od => Except.ok od
        | _ => Except.error ⟨.attributeError, "output has no attribute get", ""⟩
      let keepIt := match getD od "name" .none with
        | .str n => decide (n ∈ keepSet)
        | _ => false
      if keepIt then do
        let r ← _parse_requirements (pyOr (getD od "requirements" (.dict [])) (.dict [])) build host run
        Except.ok (reqs ∪ r)
      else Except.ok reqs) (∅ : Finset String)
  | Option.none => do
    let reqs ← _parse_requirements (getD meta_yaml "requirements" (.dict [])) build host run
    let outs ←
      if outputs then
        expectList (pyOr (getD meta_yaml "outputs" (.list [])) (.list []))
      else Except.ok []
    outs.foldlM (fun reqs o => do
      let od ← match o with
        | .dict od => Except.ok od
        | _ => Except.error ⟨.attributeError, "output has no attribute get", ""⟩
      let r ← _parse_requirements (pyOr (getD od "requirements" (.dict [])) (.dict [])) build host run
      Except.ok (reqs ∪ r)) reqs

/-- `BOOTSTRAP_MAPPINGS` (line 41) is the empty mapping, so
`BOOTSTRAP_MAPPINGS.get(name, None)` is always `None`. -/
def BOOTSTRAP_MAPPINGS_get (_name : String) : Option (Finset String) :=
  Option.none

/-! ## feedstock_parser.py : requirement cleaning -/

/-- `_clean_req_nones` (lines 173-185) applied to one section value that is
present in the requirements dict: `None` becomes `[]`, a bare string is
wrapped, and `None` entries are filtered from a list (any other value is
not iterable, so the comprehension raises). -/
def cleanSectionVal (val : PyVal) : Except PyExc PyVal := do
  let val := if pyValBEq val PyVal.none then PyVal.list [] else val
  let val := match val with
    | .str s => PyVal.list [.str s]
    | v => v
  match val with
  | .list xs => Except.ok (PyVal.list (xs.filter (fun x => !pyValBEq x PyVal.none)))
  | _ => Except.error ⟨.typeError, "value is not iterable", ""⟩

/-- `_clean_req_nones` (lines 173-185).  A non-dict `reqs` is also handled
the way Python's `section in reqs` / `reqs.get` would behave on it. -/
def _clean_req_nones (reqs : PyVal) : Except PyExc PyVal := do
  match reqs with
  | .dict rd => do
    let rd ← ["build", "host", "run"].foldlM (fun rd sec => do
      if hasKey rd sec then do
        let v ← cleanSectionVal (getD rd sec (.list []))
        Except.ok (setKey rd sec v)
      else Except.ok rd) rd
    Except.ok (PyVal.dict rd)
  | .list xs =>
    -- `section in reqs` is list membership; a hit then calls `.get` on a
    -- list, which raises
    if xs.any (fun x => pyValBEq x (.str "build") || pyValBEq x (.str "host") || pyValBEq x (.str "run")) then
      Except.error ⟨.attributeError, "list has no attribute get", ""⟩
    else Except.ok reqs
  | .str s =>
    -- `section in reqs` is a substring test on a string
    if strContains s "build" || strContains s "host" || strContains s "run" then
      Except.error ⟨.attributeError, "str has no attribute get", ""⟩
    else Except.ok reqs
  | .strset ss =>
    if "build" ∈ ss || "host" ∈ ss || "run" ∈ ss then
      Except.error ⟨.attributeError, "set has no attribute get", ""⟩
    else Except.ok reqs
  | _ => Except.error ⟨.typeError, "argument is not iterable", ""⟩

/-- The requirement sanitation applied to each freshly rendered variant
(lines 281-292): clean the top-level `requirements` and each output's
`requirements` when present. -/
def cleanVariant (v : Dict) : Except PyExc Dict := do
  let v ←
    if hasKey v "requirements" then do
      let r ← _clean_req_nones (getD v "requirements" .none)
      Except.ok (setKey v "requirements" r)
    else Except.ok v
  if hasKey v "outputs" then do
    match getD v "outputs" .none with
    | .list outs => do
      let outs ← outs.mapM (fun o => do
        match o with
        | .dict od =>
          if hasKey od "requirements" then do
            let r ← _clean_req_nones (getD od "requirements" .none)
            Except.ok (PyVal.dict (setKey od "requirements" r))
          else Except.ok o
        | .list xs =>
          if xs.any (fun x => pyValBEq x (.str "requirements")) then
            Except.error ⟨.typeError, "list indices must be integers", ""⟩
          else Except.ok o
        | .str s =>
          if strContains s "requirements" then
            Except.error ⟨.typeError, "string indices must be integers", ""⟩
          else Except.ok o
        | _ => Except.error ⟨.typeError, "argument is not iterable", ""⟩)
      Except.ok (setKey v "outputs" (.list outs))
    | .str _ => Except.ok v
    | _ => Except.error ⟨.typeError, "object has no len()", ""⟩
  else Except.ok v

/-! ## feedstock_parser.py : variant discovery and merge -/

/-- `os.path.basename`. -/
def basename (p : String) : String := (pySplit p "/").getLastD p

/-- The arch literals recognised for the second filename token (line 253).
Note that `"32"` is not among them. -/
def recognizedArchs : List String := ["64", "aarch64", "ppc64le", "arm64"]

/-- The suffixes stripped from the end of the platform token (line 258). -/
def platSuffixes : List String := ["64", "aarch64", "ppc64le", "arm64", "32"]

/-- Lines 249-262 applied to the already-split filename stem: platform is
the first token with the first matching trailing suffix stripped; arch is
the second token when recognised, else `"64"`. -/
def parse_cbc_parts : List String → String × String
  | [] => ("", "64")
  | plat0 :: rest =>
    let arch := match rest with
      | [] => "64"
      | a :: _ => if a ∈ recognizedArchs then a else "64"
    let plat := match platSuffixes.find? (fun tt => pyEndsWith plat0 tt) with
      | some tt => plat0.dropRight tt.length
      | Option.none => plat0
    (plat, arch)

/-- Lines 247-262: parse a conda-build-config path into its
`(platform, arch)` pair. -/
def parse_cbc_plat_arch (cbc_path : String) : String × String :=
  parse_cbc_parts (pySplit (pyReplace (basename cbc_path) ".yaml" "") "_")

/-- Modelled from the spec: `ChainDB` lookup (the xonsh library construct is
external to this repository).  Per §4.2 a key resolves to the first defined
value scanning from the last layer backward, the winning value taken
verbatim. -/
def chainLookup (layers : List Dict) (k : String) : Option PyVal :=
  layers.reverse.findSome? (fun d => lookupD d k)

/-- The keys of the chain, first-appearance order. -/
def allKeys (layers : List Dict) : List String :=
  dedupFirst ((layers.map (fun d => d.map Prod.fst)).flatten)

/-- Modelled from the spec: `_convert_to_dict(ChainDB(*layers))` at the top
level — one entry per key of any layer, the value resolved by
`chainLookup` (last layer wins, taken verbatim). -/
def chainMerge (layers : List Dict) : Dict :=
  (allKeys layers).filterMap (fun k => (chainLookup layers k).map (fun v => (k, v)))

/-- `not ChainDB(*layers)` : a ChainMap is falsy iff it has no keys. -/
def chainIsEmpty (layers : List Dict) : Bool :=
  (allKeys layers).isEmpty

/-- Lexicographic comparison of the `(platform, arch, ...)` tuples used as
sort keys (Python tuple `<=` on string tuples). -/
def listStrLE : List String → List String → Bool
  | [], _ => true
  | _ :: _, [] => false
  | a :: as, b :: bs => if a = b then listStrLE as bs else charListLt a.data b.data

/-- The arguments `parse_meta_yaml` is invoked with (the renderer is an
external collaborator; it is passed as a function parameter below). -/
structure RenderCall where
  meta_yaml : String
  platform : String
  arch : String
  recipe_dir : Option String
  cbc_path : Option String
  orig_cbc_path : Option String
deriving DecidableEq, Repr

/-- The "collapse them down" step (lines 294-308): group the accumulated
variants by their `(platform, arch)` key in first-occurrence order and
merge each group's renders into one entry per key. -/
def collapseCfgs (pa : List (List String)) (vys : List Dict) :
    List (List String) × List Dict :=
  let pairs := pa.zip vys
  let keys := dedupFirst (pairs.map Prod.fst)
  let merged := keys.map (fun k =>
    (k, chainMerge ((pairs.filter (fun p => p.1 = k)).map Prod.snd)))
  (merged.map Prod.fst, merged.map Prod.snd)

/-- One iteration of the `for cbc_path in ci_support_files` loop
(lines 245-308): parse the filename, render, sanitise the requirements and
collapse duplicate keys. -/
def ciLoopStep (render : RenderCall → Except PyExc Dict)
    (metaText recipeDir : String)
    (st : List (List String) × List Dict) (cbc_path : String) :
    Except PyExc (List (List String) × List Dict) := do
  let (pa, vys) := st
  let parsed := parse_cbc_plat_arch cbc_path
  let pa := pa ++ [[parsed.1, parsed.2]]
  let v ← render ⟨metaText, parsed.1, parsed.2, some recipeDir, some cbc_path,
    some (recipeDir ++ "/conda_build_config.yaml")⟩
  let v ← cleanVariant v
  let vys := vys ++ [v]
  Except.ok (collapseCfgs pa vys)

/-- The generic branch (lines 310-318): the three default variants plus any
`platform_arch`-shaped key of the project config's `provider` section.
Python iterates `set(...)`, whose order is unspecified; we iterate in
first-occurrence order. -/
def genericVariants (render : RenderCall → Except PyExc Dict)
    (metaText : String) (cfVal : PyVal) :
    Except PyExc (List (List String) × List Dict) := do
  let cfd ← match cfVal with
    | .dict d => Except.ok d
    | _ => Except.error ⟨.attributeError, "conda-forge.yml has no attribute get", ""⟩
  let provKeys ← match getD cfd "provider" (.dict []) with
    | .dict pd => Except.ok (pd.map Prod.fst)
    | .list xs => xs.mapM expectStr
    | .str s => Except.ok (s.data.map (fun c => String.mk [c]))
    | .strset ss => Except.ok (ss.sort (fun a b => a ≤ b))
    | _ => Except.error ⟨.typeError, "argument is not iterable", ""⟩
  let provKeys := dedupFirst provKeys
  let pa := [["win", "64"], ["osx", "64"], ["linux", "64"]] ++
    ((provKeys.filter (fun k => (pySplit k "_").length ≥ 2)).map (fun k => pySplit k "_"))
  let vys ← pa.mapM (fun parts => match parts with
    | [plat, arch] =>
      render ⟨metaText, plat, arch, Option.none, Option.none, Option.none⟩
    | _ => Except.error ⟨.valueError, "not enough or too many values to unpack", ""⟩)
  Except.ok (pa, vys)

/-! ## feedstock_parser.py : populate_feedstock_attributes -/

/-- The `meta_yaml` argument: either a raw string or a `requests.Response`
(carrying a status code), as `load_feedstock_local` hands in on fetch
failure. -/
inductive MetaYamlInput where
  | response (status : Int)
  | text (s : String)
deriving DecidableEq, Repr

/-- The stale keys stripped before repopulation (lines 214-216). -/
def staleKey (k : String) : Bool :=
  pyEndsWith k "meta_yaml" || pyEndsWith k "requirements" || k = "req"

/-- Modelled from the spec: `hashlib.algorithms_available` comes from the
Python runtime (external); fixed here to the guaranteed-available names. -/
def hashlib_algorithms_available : List String :=
  ["md5", "sha1", "sha224", "sha256", "sha384", "sha512",
   "blake2b", "blake2s", "sha3_224", "sha3_256", "sha3_384", "sha3_512",
   "shake_128", "shake_256"]

/-- The `in` test on a Python value, as used for
`"run" in ....get("requirements", {})` (line 366). -/
def pyContains (v : PyVal) (key : String) : Except PyExc Bool :=
  match v with
  | .dict d => Except.ok (hasKey d key)
  | .list xs => Except.ok (xs.any (fun x => pyValBEq x (.str key)))
  | .str s => Except.ok (strContains s key)
  | .strset ss => Except.ok (decide (key ∈ ss))
  | .reqdict d => Except.ok (decide (key ∈ d.map Prod.fst))
  | _ => Except.error ⟨.typeError, "argument is not iterable", ""⟩

/-- `container[key]` subscription on a Python value holding a mapping. -/
def pySubscript (v : PyVal) (key : String) : Except PyExc PyVal :=
  match v with
  | .dict d => match lookupD d key with
    | some x => Except.ok x
    | Option.none => Except.error ⟨.keyError, key, ""⟩
  | _ => Except.error ⟨.typeError, "value is not subscriptable by str", ""⟩

/-- One step of the per-variant loop (lines 340-346): store the variant's
meta yaml and its pin-stripped requirements bundle. -/
def variantStep (name : String) (g : Dict) (kv : List String × Dict) :
    Except (PyExc × Dict) Dict :=
  let pan := String.intercalate "_" kv.1
  let g := setKey g (pan ++ "_meta_yaml") (.dict kv.2)
  match _extract_requirements kv.2 (BOOTSTRAP_MAPPINGS_get name) with
  | .error e => Except.error (e, g)
  | .ok ext => Except.ok (setKey g (pan ++ "_requirements") (.reqdict ext.2.1))

/-- Lines 357-371: compute `outputs_names`.  Errors carry the record `g`
(the caller's `sub_graph`, unchanged by this computation). -/
def computeOutputsNames (yaml_dict : List Dict) (merged : Dict) (g : Dict) :
    Except (PyExc × Dict) (Finset String) := do
  match chainLookup yaml_dict "outputs" with
  | some outsVal => do
    let outs ← match expectList outsVal with
      | .ok outs => Except.ok outs
      | .error e => Except.error (e, g)
    let names ← outs.foldlM (fun acc o => match o with
      | .dict od =>
        (match expectStr (getD od "name" (.str "")) with
          | .ok n => Except.ok (acc ++ [n])
          | .error e => Except.error (e, g))
      | _ => Except.error (⟨.attributeError, "output has no attribute get", ""⟩, g))
      ([] : List String)
    let hasRun ← match pyContains (getD merged "requirements" (.dict [])) "run" with
      | .ok b => Except.ok b
      | .error e => Except.error (e, g)
    if hasRun then do
      let pkg ← match pySubscript (PyVal.dict merged) "package" with
        | .ok v => Except.ok v
        | .error e => Except.error (e, g)
      let pkgName ← match pySubscript pkg "name" with
        | .ok (.str n) => Except.ok n
        | .ok _ => Except.error (⟨.typeError, "unhashable or non-str name", ""⟩, g)
        | .error e => Except.error (e, g)
      Except.ok (names.toFinset ∪ {pkgName})
    else
      Except.ok names.toFinset
  | Option.none => do
    let pkg ← match pySubscript (PyVal.dict merged) "package" with
      | .ok v => Except.ok v
      | .error e => Except.error (e, g)
    match pySubscript pkg "name" with
      | .ok (.str n) => Except.ok ({n} : Finset String)
      | .ok _ => Except.error (⟨.typeError, "unhashable or non-str name", ""⟩, g)
      | .error e => Except.error (e, g)

/-- One step of the `package`/`name`-`version` loop (lines 382-386). -/
def pkgKeyStep (yaml_dict : List Dict) (g : Dict) (kk : String × String) :
    Except (PyExc × Dict) Dict :=
  let secVal := (chainLookup yaml_dict kk.1).getD (.dict [])
  match pyContains secVal kk.2 with
  | .error e => Except.error (e, g)
  | .ok present =>
    if present then
      match pySubscript secVal kk.2 with
      | .ok v => Except.ok (setKey g kk.2 v)
      | .error e => Except.error (e, g)
    else Except.ok g

/-- One step of the source-entry loop (lines 396-399): set `url` while it
is still falsy, and union in the entry's keys. -/
def sourceStep (st : Dict × List String) (s : PyVal) :
    Except (PyExc × Dict) (Dict × List String) :=
  match s with
  | .dict sd =>
    let g :=
      if !pyTruthy (getD st.1 "url" .none) then
        setKey st.1 "url" (getD sd "url" .none)
      else st.1
    Except.ok (g, st.2 ++ sd.map Prod.fst)
  | _ => Except.error (⟨.attributeError, "source entry has no attribute get", ""⟩, st.1)

/-- The tail of `populate_feedstock_attributes` (lines 357-405): outputs
names, the legacy `req` key, package name/version, url and hash type. -/
def restStage (yaml_dict : List Dict) (merged : Dict) (g : Dict) :
    Except (PyExc × Dict) Dict :=
  match computeOutputsNames yaml_dict merged g with
  | .error e => .error e
  | .ok outputs_names =>
    let g := setKey g "outputs_names" (.strset outputs_names)
    -- `req` (lines 375-379); BOOTSTRAP_MAPPINGS.get(name, []) is falsy
    match _get_requirements merged true true true true Option.none with
    | .error e => Except.error (e, g)
    | .ok req =>
      let g := setKey g "req" (.strset req)
      match [("package", "name"), ("package", "version")].foldlM
          (pkgKeyStep yaml_dict) g with
      | .error e => .error e
      | .ok g =>
        -- url and hash_type (lines 389-403)
        let g := delKey g "url"
        let g := delKey g "hash_type"
        let source := (chainLookup yaml_dict "source").getD (.list [])
        let source := match source with
          | .dict d => PyVal.list [.dict d]
          | v => v
        match source with
        | .list xs =>
          (match xs.foldlM sourceStep (g, ([] : List String)) with
          | .error e => .error e
          | .ok st =>
            -- `kl = sorted(source_keys & hashlib.algorithms_available,
            -- reverse=True)` and `kl[0]`: the largest matching key
            let inter := st.2.filter
              (fun k => hashlib_algorithms_available.contains k)
            Except.ok (match maxStrList inter with
              | some k => setKey st.1 "hash_type" (.str k)
              | Option.none => st.1))
        | _ => Except.error (⟨.typeError, "source is not iterable", ""⟩, g)

/-- Everything `populate_feedstock_attributes` does after the variant set
has been rendered (lines 326-405).  `g` is the record as mutated so far;
errors carry the record because the caller's `sub_graph` is mutated in
place. -/
def populate_after_render (name : String) (g : Dict)
    (pa : List (List String)) (vys : List Dict) :
    Except (PyExc × Dict) Dict := do
  let g := setKey g "platforms" (.list (pa.map (fun k => .str (String.intercalate "_" k))))
  -- `sorted_variant_yamls = [x for _, x in sorted(zip(plat_arch, variant_yamls))]`
  let yaml_dict := (stableSort (fun x y => listStrLE x.1 y.1) (pa.zip vys)).map Prod.snd
  if chainIsEmpty yaml_dict then
    Except.ok (setKey g "parsing_error" (.str "make_graph: Could not parse"))
  else do
    let merged := chainMerge yaml_dict
    let g := setKey g "meta_yaml" (.dict merged)
    -- per-variant keys (lines 340-346)
    let g ← (pa.zip vys).foldlM (variantStep name) g
    -- whole-package extraction (lines 348-355)
    match _extract_requirements merged (BOOTSTRAP_MAPPINGS_get name) with
    | .error e => Except.error (e, g)
    | .ok ext => do
      let g := setKey g "total_requirements" (.reqdict ext.1)
      let g := setKey g "requirements" (.reqdict ext.2.1)
      let g := setKey g "strong_exports" (.bool ext.2.2)
      restStage yaml_dict merged g

/-- Lines 203-206: the unconditional record updates at function entry. -/
def prepStage (name : String) (sub_graph : Dict) (mark_not_archived : Bool) : Dict :=
  let g := setKey sub_graph "feedstock_name" (.str name)
  let g := setKey g "parsing_error" (.bool false)
  let g := setKey g "branch" (.str "main")
  if mark_not_archived then setKey g "archived" (.bool false) else g

/-- Lines 213-224: strip the stale keys, store the raw meta yaml and the
parsed `conda-forge.yml`. -/
def prepTextStage (metaText : String) (conda_forge_yaml : Option Dict) (g : Dict) : Dict :=
  let g := g.filter (fun e => !staleKey e.1)
  let g := setKey g "raw_meta_yaml" (.str metaText)
  match conda_forge_yaml with
  | some cfd => setKey g "conda-forge.yml" (.dict cfd)
  | Option.none => g

/-- The `try` block (lines 232-324): discover the variant set and render
each variant, either from the `.ci_support` files or generically. -/
def renderStage (render : RenderCall → Except PyExc Dict) (metaText : String)
    (g : Dict) (feedstock_dir : Option (String × List String)) :
    Except PyExc (List (List String) × List Dict) :=
  let generic : Except PyExc (List (List String) × List Dict) :=
    match lookupD g "conda-forge.yml" with
    | some cfVal => genericVariants render metaText cfVal
    | Option.none => Except.error ⟨.keyError, "conda-forge.yml", ""⟩
  match feedstock_dir with
  | some fd =>
    if (fd.2.length > 0 : Bool) then
      (stableSort pyStrLe fd.2).foldlM
        (ciLoopStep render metaText (fd.1 ++ "/recipe")) ([], [])
    else generic
  | Option.none => generic

/-- `populate_feedstock_attributes` (lines 188-405).  `render` is the
external renderer `parse_meta_yaml`; `conda_forge_yaml` is `some d` when a
string whose `yaml.safe_load` yields the mapping `d` is handed in, and
`none` when a non-string is handed in; `feedstock_dir` is `some (dir,
ci_support_yaml_paths)` when a feedstock checkout is available.  An error
result carries the exception and the record as mutated so far (the Python
function mutates `sub_graph` in place and re-raises). -/
def populate_feedstock_attributes (render : RenderCall → Except PyExc Dict)
    (name : String) (sub_graph : Dict) (meta_yaml : MetaYamlInput)
    (conda_forge_yaml : Option Dict) (mark_not_archived : Bool)
    (feedstock_dir : Option (String × List String)) :
    Except (PyExc × Dict) Dict := do
  let g := prepStage name sub_graph mark_not_archived
  match meta_yaml with
  | .response status =>
    Except.ok (setKey g "parsing_error" (.str ("make_graph: " ++ toString status)))
  | .text metaText => do
    let g := prepTextStage metaText conda_forge_yaml g
    match renderStage render metaText g feedstock_dir with
    | .error e =>
      Except.error (e, setKey g "parsing_error"
        (.str ("make_graph: render error " ++ e.msg ++ "\n" ++ e.trb)))
    | .ok pv => populate_after_render name g pv.1 pv.2

/-! ## Well-formed requirement blocks

The spec's "well-formed requirement blocks" (§8): the shapes on which the
extraction code is meant to run — mappings whose requirement sections are
absent, falsy, strings or lists of strings/`None`, whose `test` is absent
or a mapping with list-or-falsy `requirements`/`requires`, and whose
block-level `build` is absent, falsy or a mapping. -/

/-- A requirement list entry: a string or `None` (`None` entries are
hashable and are dropped by the truthiness filter; unhashable entries such
as `[]` or `{}` are not well-formed — `set.update` raises `TypeError` on
them). -/
def wfEntry : PyVal → Bool
  | .str _ => true
  | .none => true
  | _ => false

def wfEntryList (xs : List PyVal) : Bool := xs.all wfEntry

/-- A `build`/`host`/`run` section value after the `or []` normalisation. -/
def wfSectionVal : PyVal → Bool
  | .str _ => true
  | .list xs => wfEntryList xs
  | v => !pyTruthy v

/-- A `requirements` value after the `or {}` normalisation: a bare list of
entries or a mapping of sections. -/
def wfReqVal : PyVal → Bool
  | .list xs => wfEntryList xs
  | .dict rd =>
    wfSectionVal (pyOr (getD rd "build" (.list [])) (.list [])) &&
    wfSectionVal (pyOr (getD rd "host" (.list [])) (.list [])) &&
    wfSectionVal (pyOr (getD rd "run" (.list [])) (.list []))
  | v => !pyTruthy v

/-- A `test.requirements`/`test.requires` value after `or []`. -/
def wfTestVal : PyVal → Bool
  | .list xs => wfEntryList xs
  | v => !pyTruthy v

/-- A well-formed block (the root recipe or one output). -/
def wfBlock : PyVal → Bool
  | .dict bd =>
    wfReqVal (pyOr (getD bd "requirements" (.dict [])) (.dict [])) &&
    (match getD bd "test" (.dict []) with
      | .dict td =>
        wfTestVal (pyOr (getD td "requirements" (.list [])) (.list [])) &&
        wfTestVal (pyOr (getD td "requires" (.list [])) (.list []))
      | _ => false) &&
    (match pyOr (getD bd "build" (.dict [])) (.dict []) with
      | .dict _ => true
      | _ => false)
  | _ => false

/-- A well-formed recipe: the root block and every output block are
well-formed (`outputs`, when present, is a list). -/
def wfRecipe (meta_yaml : Dict) : Bool :=
  wfBlock (.dict meta_yaml) &&
  (match getD meta_yaml "outputs" (.list []) with
    | .list outs => outs.all wfBlock
    | _ => false)

/-- Does this block carry a mapping-form `requirements` (after `or {}`)? -/
def isDictFormReq (b : PyVal) : Bool :=
  match b with
  | .dict bd =>
    (match pyOr (getD bd "requirements" (.dict [])) (.dict []) with
      | .dict _ => true
      | _ => false)
  | _ => false

/-! # Helper lemmas -/

mutual

theorem pyValBEq_sound : (a b : PyVal) → pyValBEq a b = true → a = b
  | .none, .none, _ => rfl
  | .bool x, .bool y, h => congrArg PyVal.bool (of_decide_eq_true h)
  | .int x, .int y, h => congrArg PyVal.int (of_decide_eq_true h)
  | .str x, .str y, h => congrArg PyVal.str (of_decide_eq_true h)
  | .list xs, .list ys, h => by
    rw [pyValListBEq_sound xs ys (by simpa [pyValBEq] using h)]
  | .dict xs, .dict ys, h => by
    rw [pyValEntriesBEq_sound xs ys (by simpa [pyValBEq] using h)]
  | .strset x, .strset y, h => congrArg PyVal.strset (of_decide_eq_true h)
  | .reqdict x, .reqdict y, h => congrArg PyVal.reqdict (of_decide_eq_true h)
  | .none, .bool _, h => by simp [pyValBEq] at h
  | .none, .int _, h => by simp [pyValBEq] at h
  | .none, .str _, h => by simp [pyValBEq] at h
  | .none, .list _, h => by simp [pyValBEq] at h
  | .none, .dict _, h => by simp [pyValBEq] at h
  | .none, .strset _, h => by simp [pyValBEq] at h
  | .none, .reqdict _, h => by simp [pyValBEq] at h
  | .bool _, .none, h => by simp [pyValBEq] at h
  | .bool _, .int _, h => by simp [pyValBEq] at h
  | .bool _, .str _, h => by simp [pyValBEq] at h
  | .bool _, .list _, h => by simp [pyValBEq] at h
  | .bool _, .dict _, h => by simp [pyValBEq] at h
  | .bool _, .strset _, h => by simp [pyValBEq] at h
  | .bool _, .reqdict _, h => by simp [pyValBEq] at h
  | .int _, .none, h => by simp [pyValBEq] at h
  | .int _, .bool _, h => by simp [pyValBEq] at h
  | .int _, .str _, h => by simp [pyValBEq] at h
  | .int _, .list _, h => by simp [pyValBEq] at h
  | .int _, .dict _, h => by simp [pyValBEq] at h
  | .int _, .strset _, h => by simp [pyValBEq] at h
  | .int _, .reqdict _, h => by simp [pyValBEq] at h
  | .str _, .none, h => by simp [pyValBEq] at h
  | .str _, .bool _, h => by simp [pyValBEq] at h
  | .str _, .int _, h => by simp [pyValBEq] at h
  | .str _, .list _, h => by simp [pyValBEq] at h
  | .str _, .dict _, h => by simp [pyValBEq] at h
  | .str _, .strset _, h => by simp [pyValBEq] at h
  | .str _, .reqdict _, h => by simp [pyValBEq] at h
  | .list _, .none, h => by simp [pyValBEq] at h
  | .list _, .bool _, h => by simp [pyValBEq] at h
  | .list _, .int _, h => by simp [pyValBEq] at h
  | .list _, .str _, h => by simp [pyValBEq] at h
  | .list _, .dict _, h => by simp [pyValBEq] at h
  | .list _, .strset _, h => by simp [pyValBEq] at h
  | .list _, .reqdict _, h => by simp [pyValBEq] at h
  | .dict _, .none, h => by simp [pyValBEq] at h
  | .dict _, .bool _, h => by simp [pyValBEq] at h
  | .dict _, .int _, h => by simp [pyValBEq] at h
  | .dict _, .str _, h => by simp [pyValBEq] at h
  | .dict _, .list _, h => by simp [pyValBEq] at h
  | .dict _, .strset _, h => by simp [pyValBEq] at h
  | .dict _, .reqdict _, h => by simp [pyValBEq] at h
  | .strset _, .none, h => by simp [pyValBEq] at h
  | .strset _, .bool _, h => by simp [pyValBEq] at h
  | .strset _, .int _, h => by simp [pyValBEq] at h
  | .strset _, .str _, h => by simp [pyValBEq] at h
  | .strset _, .list _, h => by simp [pyValBEq] at h
  | .strset _, .dict _, h => by simp [pyValBEq] at h
  | .strset _, .reqdict _, h => by simp [pyValBEq] at h
  | .reqdict _, .none, h => by simp [pyValBEq] at h
  | .reqdict _, .bool _, h => by simp [pyValBEq] at h
  | .reqdict _, .int _, h => by simp [pyValBEq] at h
  | .reqdict _, .str _, h => by simp [pyValBEq] at h
  | .reqdict _, .list _, h => by simp [pyValBEq] at h
  | .reqdict _, .dict _, h => by simp [pyValBEq] at h
  | .reqdict _, .strset _, h => by simp [pyValBEq] at h

theorem pyValListBEq_sound : (xs ys : List PyVal) →
    pyValListBEq xs ys = true → xs = ys
  | [], [], _ => rfl
  | x :: xs, y :: ys, h => by
    have h1 : pyValBEq x y = true := by
      have := h; simp [pyValListBEq, Bool.and_eq_true] at this; exact this.1
    have h2 : pyValListBEq xs ys = true := by
      have := h; simp [pyValListBEq, Bool.and_eq_true] at this; exact this.2
    rw [pyValBEq_sound x y h1, pyValListBEq_sound xs ys h2]
  | [], _ :: _, h => by simp [pyValListBEq] at h
  | _ :: _, [], h => by simp [pyValListBEq] at h

theorem pyValEntriesBEq_sound : (xs ys : List (String × PyVal)) →
    pyValEntriesBEq xs ys = true → xs = ys
  | [], [], _ => rfl
  | (k, x) :: xs, (l, y) :: ys, h => by
    simp only [pyValEntriesBEq, Bool.and_eq_true, decide_eq_true_eq] at h
    rw [h.1.1, pyValBEq_sound x y h.1.2, pyValEntriesBEq_sound xs ys (by simp [h.2])]
  | [], _ :: _, h => by simp [pyValEntriesBEq] at h
  | _ :: _, [], h => by simp [pyValEntriesBEq] at h

end

mutual

theorem pyValBEq_refl : (a : PyVal) → pyValBEq a a = true
  | .none => rfl
  | .bool _ => by simp [pyValBEq]
  | .int _ => by simp [pyValBEq]
  | .str _ => by simp [pyValBEq]
  | .list xs => by simpa [pyValBEq] using pyValListBEq_refl xs
  | .dict xs => by simpa [pyValBEq] using pyValEntriesBEq_refl xs
  | .strset _ => by simp [pyValBEq]
  | .reqdict _ => by simp [pyValBEq]

theorem pyValListBEq_refl : (xs : List PyVal) → pyValListBEq xs xs = true
  | [] => rfl
  | x :: xs => by
    simp [pyValListBEq, Bool.and_eq_true]
    exact ⟨pyValBEq_refl x, pyValListBEq_refl xs⟩

theorem pyValEntriesBEq_refl : (xs : List (String × PyVal)) →
    pyValEntriesBEq xs xs = true
  | [] => rfl
  | (k, x) :: xs => by
    simp [pyValEntriesBEq, Bool.and_eq_true]
    exact ⟨pyValBEq_refl x, pyValEntriesBEq_refl xs⟩

end

instance : DecidableEq PyVal := fun a b =>
  if h : pyValBEq a b = true then .isTrue (pyValBEq_sound a b h)
  else .isFalse (fun he => h (he ▸ pyValBEq_refl a))

theorem lookupD_setKey_self (d : Dict) (k : String) (v : PyVal) :
    lookupD (setKey d k v) k = some v := by
  induction d with
  | nil => simp [setKey, lookupD]
  | cons e rest ih =>
    by_cases h : e.1 = k <;> simp [setKey, lookupD, h, ih]

theorem lookupD_setKey_ne (d : Dict) (k k' : String) (v : PyVal)
    (h : k' ≠ k) : lookupD (setKey d k v) k' = lookupD d k' := by
  induction d with
  | nil => simp [setKey, lookupD, Ne.symm h]
  | cons e rest ih =>
    obtain ⟨ek, ev⟩ := e
    by_cases he : ek = k
    · simp [setKey, lookupD, he, Ne.symm h]
    · by_cases he' : ek = k' <;> simp [setKey, lookupD, he, he', ih, h]

theorem lookupD_delKey (d : Dict) (k : String) :
    lookupD (delKey d k) k = Option.none := by
  induction d with
  | nil => simp [delKey, lookupD]
  | cons e rest ih =>
    obtain ⟨ek, ev⟩ := e
    by_cases h : ek = k <;>
      simp_all [delKey, lookupD, List.filter_cons]

theorem lookupD_delKey_ne (d : Dict) (k k' : String) (h : k' ≠ k) :
    lookupD (delKey d k) k' = lookupD d k' := by
  induction d with
  | nil => simp [delKey, lookupD]
  | cons e rest ih =>
    obtain ⟨ek, ev⟩ := e
    by_cases he : ek = k
    · have hne : ¬ek = k' := by rw [he]; exact Ne.symm h
      simp_all [delKey, lookupD, List.filter_cons]
    · by_cases he' : ek = k' <;> simp_all [delKey, lookupD, List.filter_cons]

/-! ## Python exceptions -/

/-! # Claim theorems: migration_runner -/

/-- C1: In `run_migration_local`, if the main migration step
(`migrator.migrate`) returns a falsy value, the returned result has
`commit_message`, `pr_title` and `pr_body` all `None`, the post-migration
hook is never invoked, and the falsy value is stored in
`migrate_return_value` — for every migrator, feedstock directory and node
attributes. -/
theorem run_migration_local_falsy_short_circuit {σ α : Type}
    (migrator : Migrator σ α)
    (feedstock_dir package_name feedstock_name : String)
    (node_attrs : σ) (default_branch : String)
    (h : migrator.truthy (migrator.migrate (feedstock_dir ++ "/recipe")
        (migrator.run_pre_piggyback_migrations (feedstock_dir ++ "/recipe") node_attrs)).1 = false) :
    (run_migration_local migrator feedstock_dir package_name feedstock_name
        node_attrs default_branch).1.commit_message = Option.none ∧
    (run_migration_local migrator feedstock_dir package_name feedstock_name
        node_attrs default_branch).1.pr_title = Option.none ∧
    (run_migration_local migrator feedstock_dir package_name feedstock_name
        node_attrs default_branch).1.pr_body = Option.none ∧
    (run_migration_local migrator feedstock_dir package_name feedstock_name
        node_attrs default_branch).1.migrate_return_value =
      some (migrator.migrate (feedstock_dir ++ "/recipe")
        (migrator.run_pre_piggyback_migrations (feedstock_dir ++ "/recipe") node_attrs)).1 ∧
    MigEvent.postHook ∉ (run_migration_local migrator feedstock_dir package_name
        feedstock_name node_attrs default_branch).2.2 := by
  simp [run_migration_local, h]

/-- Witness for C1 at a concrete migrator whose migration step returns
`False`. -/
theorem run_migration_local_falsy_short_circuit_witness :
    (run_migration_local
        (⟨fun _ s => s + 1, fun _ s => (false, s), fun _ s => s, fun _ => "c",
          fun _ => "b", fun _ => "t", fun b => b⟩ : Migrator Nat Bool)
        "fsd" "pkg" "fs" 0 "main").1.commit_message = Option.none ∧
    (run_migration_local
        (⟨fun _ s => s + 1, fun _ s => (false, s), fun _ s => s, fun _ => "c",
          fun _ => "b", fun _ => "t", fun b => b⟩ : Migrator Nat Bool)
        "fsd" "pkg" "fs" 0 "main").1.pr_title = Option.none ∧
    (run_migration_local
        (⟨fun _ s => s + 1, fun _ s => (false, s), fun _ s => s, fun _ => "c",
          fun _ => "b", fun _ => "t", fun b => b⟩ : Migrator Nat Bool)
        "fsd" "pkg" "fs" 0 "main").1.pr_body = Option.none ∧
    (run_migration_local
        (⟨fun _ s => s + 1, fun _ s => (false, s), fun _ s => s, fun _ => "c",
          fun _ => "b", fun _ => "t", fun b => b⟩ : Migrator Nat Bool)
        "fsd" "pkg" "fs" 0 "main").1.migrate_return_value =
      some ((⟨fun _ s => s + 1, fun _ s => (false, s), fun _ s => s, fun _ => "c",
          fun _ => "b", fun _ => "t", fun b => b⟩ : Migrator Nat Bool).migrate ("fsd" ++ "/recipe")
        ((⟨fun _ s => s + 1, fun _ s => (false, s), fun _ s => s, fun _ => "c",
          fun _ => "b", fun _ => "t", fun b => b⟩ : Migrator Nat Bool).run_pre_piggyback_migrations
          ("fsd" ++ "/recipe") 0)).1 ∧
    MigEvent.postHook ∉ (run_migration_local
        (⟨fun _ s => s + 1, fun _ s => (false, s), fun _ s => s, fun _ => "c",
          fun _ => "b", fun _ => "t", fun b => b⟩ : Migrator Nat Bool)
        "fsd" "pkg" "fs" 0 "main").2.2 :=
  run_migration_local_falsy_short_circuit _ "fsd" "pkg" "fs" 0 "main" rfl

/-- C3: `run_migration_containerized` raises `NotImplementedError` for all
inputs, and `run_migration` dispatched to the container route (truthy
`use_container`, not already inside a container) fails with that error
rather than degrading to local execution. -/
theorem run_migration_containerized_raises {σ α : Type}
    (migrator : Migrator σ α) (fd pn fn : String) (na : σ) (db : String)
    (use_container : Option Bool)
    (h : (match use_container with | Option.none => true | some b => b) = true) :
    run_migration_containerized migrator fd pn fn na db =
      Except.error ⟨.notImplementedError,
        "Containerized migrations are not yet implemented!", ""⟩ ∧
    run_migration migrator fd pn fn na db use_container false =
      Except.error ⟨.notImplementedError,
        "Containerized migrations are not yet implemented!", ""⟩ := by
  refine ⟨rfl, ?_⟩
  cases use_container <;> simp_all [run_migration, run_migration_containerized]

/-- Witness for C3 with an explicit `use_container=True` call. -/
theorem run_migration_containerized_raises_witness :
    run_migration_containerized
        (⟨fun _ s => s, fun _ s => (true, s), fun _ s => s, fun _ => "m",
          fun _ => "b", fun _ => "t", fun b => b⟩ : Migrator Nat Bool)
        "fsd" "pkg" "fs" 0 "main" =
      Except.error ⟨.notImplementedError,
        "Containerized migrations are not yet implemented!", ""⟩ ∧
    run_migration
        (⟨fun _ s => s, fun _ s => (true, s), fun _ s => s, fun _ => "m",
          fun _ => "b", fun _ => "t", fun b => b⟩ : Migrator Nat Bool)
        "fsd" "pkg" "fs" 0 "main" (some true) false =
      Except.error ⟨.notImplementedError,
        "Containerized migrations are not yet implemented!", ""⟩ :=
  run_migration_containerized_raises _ "fsd" "pkg" "fs" 0 "main" (some true) rfl

/-- C2 counterexample: at a concrete migration task the containerized path
does not produce the local path's `DispatchResult` — it raises
`NotImplementedError` instead, so the two paths are not observationally
equivalent. -/
theorem containerized_local_equiv_counterexample :
    run_migration_containerized
        (⟨fun _ s => s, fun _ s => (true, s), fun _ s => s, fun _ => "msg",
          fun _ => "body", fun _ => "title", fun b => b⟩ : Migrator Nat Bool)
        "fsd" "pkg" "fs" 0 "main" ≠
      Except.ok (run_migration_local
        (⟨fun _ s => s, fun _ s => (true, s), fun _ s => s, fun _ => "msg",
          fun _ => "body", fun _ => "title", fun b => b⟩ : Migrator Nat Bool)
        "fsd" "pkg" "fs" 0 "main") := by
  intro h
  exact Except.noConfusion h

/-- C2 amended: whenever the dispatch does not take the container route,
`run_migration` returns exactly `run_migration_local`'s `DispatchResult`;
the containerized path raises `NotImplementedError` for every input, so the
observational-equivalence contract is unrealizable in the current code. -/
theorem run_migration_local_route_agrees {σ α : Type}
    (migrator : Migrator σ α) (fd pn fn : String) (na : σ) (db : String)
    (use_container : Option Bool) (in_container : Bool)
    (h : ((match use_container with
            | Option.none => !in_container
            | some b => b) && !in_container) = false) :
    run_migration migrator fd pn fn na db use_container in_container =
      Except.ok (run_migration_local migrator fd pn fn na db) ∧
    ∀ (m2 : Migrator σ α) (fd2 pn2 fn2 : String) (na2 : σ) (db2 : String),
      run_migration_containerized m2 fd2 pn2 fn2 na2 db2 =
        Except.error ⟨.notImplementedError,
          "Containerized migrations are not yet implemented!", ""⟩ := by
  refine ⟨?_, fun _ _ _ _ _ _ => rfl⟩
  simp only [run_migration]
  rw [h]
  simp

/-- Witness for the amended C2 at a concrete `use_container=False` call. -/
theorem run_migration_local_route_agrees_witness :
    run_migration
        (⟨fun _ s => s, fun _ s => (true, s), fun _ s => s, fun _ => "msg",
          fun _ => "body", fun _ => "title", fun b => b⟩ : Migrator Nat Bool)
        "fsd" "pkg" "fs" 0 "main" (some false) false =
      Except.ok (run_migration_local
        (⟨fun _ s => s, fun _ s => (true, s), fun _ s => s, fun _ => "msg",
          fun _ => "body", fun _ => "title", fun b => b⟩ : Migrator Nat Bool)
        "fsd" "pkg" "fs" 0 "main") ∧
    ∀ (m2 : Migrator Nat Bool) (fd2 pn2 fn2 : String) (na2 : Nat) (db2 : String),
      run_migration_containerized m2 fd2 pn2 fn2 na2 db2 =
        Except.error ⟨.notImplementedError,
          "Containerized migrations are not yet implemented!", ""⟩ :=
  run_migration_local_route_agrees _ "fsd" "pkg" "fs" 0 "main" (some false) false rfl

/-! # Claim theorems: build-config filename parsing -/

/-- C8 counterexample: for the build-config stem `linux_32`, the code
parses arch `"64"` (the second token `"32"` is not a recognised arch
literal in the code, contrary to the claimed arch set), not `"32"`. -/
theorem cbc_arch_32_counterexample :
    parse_cbc_plat_arch "linux_32.yaml" = ("linux", "64") ∧
    ("linux", "64") ≠ ("linux", "32") := by
  constructor
  · decide
  · decide

/-- C8 amended: the parsed platform is the first token with the first
matching trailing suffix among {64, aarch64, ppc64le, arm64, 32} stripped;
the parsed arch is the second token whenever it lies in the recognised set
{64, aarch64, ppc64le, arm64} — which does not contain 32 — and defaults
to "64" otherwise, including when there is no second token. -/
theorem cbc_parse_amended (cbc_path : String) (plat0 : String) (rest : List String)
    (hsplit : pySplit (pyReplace (basename cbc_path) ".yaml" "") "_" = plat0 :: rest) :
    ((∀ a rest2, rest = a :: rest2 →
        (parse_cbc_plat_arch cbc_path).2 = (if a ∈ recognizedArchs then a else "64")) ∧
      (rest = [] → (parse_cbc_plat_arch cbc_path).2 = "64") ∧
      "32" ∉ recognizedArchs) ∧
    (((∃ tt, platSuffixes.find? (fun t => pyEndsWith plat0 t) = some tt ∧
          (parse_cbc_plat_arch cbc_path).1 = plat0.dropRight tt.length) ∨
        ((∀ tt ∈ platSuffixes, pyEndsWith plat0 tt = false) ∧
          (parse_cbc_plat_arch cbc_path).1 = plat0)) ∧
      "32" ∈ platSuffixes) := by
  unfold parse_cbc_plat_arch
  rw [hsplit]
  refine ⟨⟨?_, ?_, by decide⟩, ?_, by decide⟩
  · rintro a rest2 rfl
    simp [parse_cbc_parts]
  · rintro rfl
    simp [parse_cbc_parts]
  · cases hfind : platSuffixes.find? (fun t => pyEndsWith plat0 t) with
    | some tt =>
      left
      exact ⟨tt, rfl, by simp [parse_cbc_parts, hfind]⟩
    | none =>
      right
      refine ⟨?_, by simp [parse_cbc_parts, hfind]⟩
      intro tt htt
      have := List.find?_eq_none.mp hfind tt htt
      simpa using this

/-- Witness for the amended C8 on the stem `osx_arm64_.yaml`. -/
theorem cbc_parse_amended_witness :
    ((∀ a rest2, ["arm64", ""] = a :: rest2 →
        (parse_cbc_plat_arch "osx_arm64_.yaml").2 = (if a ∈ recognizedArchs then a else "64")) ∧
      (["arm64", ""] = [] → (parse_cbc_plat_arch "osx_arm64_.yaml").2 = "64") ∧
      "32" ∉ recognizedArchs) ∧
    (((∃ tt, platSuffixes.find? (fun t => pyEndsWith "osx" t) = some tt ∧
          (parse_cbc_plat_arch "osx_arm64_.yaml").1 = "osx".dropRight tt.length) ∨
        ((∀ tt ∈ platSuffixes, pyEndsWith "osx" tt = false) ∧
          (parse_cbc_plat_arch "osx_arm64_.yaml").1 = "osx")) ∧
      "32" ∈ platSuffixes) :=
  cbc_parse_amended "osx_arm64_.yaml" "osx" ["arm64", ""] (by decide)

/-! # Helper lemmas: lower-casing and pin separators -/

theorem py_lower_char_not_upper (c : Char) :
    ¬('A' ≤ py_lower_char c ∧ py_lower_char c ≤ 'Z') := by
  unfold py_lower_char
  cases hfind : upperLowerPairs.find? (fun p => p.1 = c) with
  | some p =>
    have hp : p ∈ upperLowerPairs := List.mem_of_find?_eq_some hfind
    have hall : ∀ q ∈ upperLowerPairs, ¬('A' ≤ q.2 ∧ q.2 ≤ 'Z') := by decide
    exact hall p hp
  | none =>
    rintro ⟨hA, hZ⟩
    have hmiss : ∀ q ∈ upperLowerPairs, ¬(q.1 = c) := by
      intro q hq
      have := List.find?_eq_none.mp hfind q hq
      simpa using this
    have hA2 : 65 ≤ c.toNat := hA
    have hZ2 : c.toNat ≤ 90 := hZ
    have n1 : c.toNat ≠ 65 := fun hv => hmiss ('A', 'a') (by decide) (Char.ext (UInt32.ext hv.symm))
    have n2 : c.toNat ≠ 66 := fun hv => hmiss ('B', 'b') (by decide) (Char.ext (UInt32.ext hv.symm))
    have n3 : c.toNat ≠ 67 := fun hv => hmiss ('C', 'c') (by decide) (Char.ext (UInt32.ext hv.symm))
    have n4 : c.toNat ≠ 68 := fun hv => hmiss ('D', 'd') (by decide) (Char.ext (UInt32.ext hv.symm))
    have n5 : c.toNat ≠ 69 := fun hv => hmiss ('E', 'e') (by decide) (Char.ext (UInt32.ext hv.symm))
    have n6 : c.toNat ≠ 70 := fun hv => hmiss ('F', 'f') (by decide) (Char.ext (UInt32.ext hv.symm))
    have n7 : c.toNat ≠ 71 := fun hv => hmiss ('G', 'g') (by decide) (Char.ext (UInt32.ext hv.symm))
    have n8 : c.toNat ≠ 72 := fun hv => hmiss ('H', 'h') (by decide) (Char.ext (UInt32.ext hv.symm))
    have n9 : c.toNat ≠ 73 := fun hv => hmiss ('I', 'i') (by decide) (Char.ext (UInt32.ext hv.symm))
    have n10 : c.toNat ≠ 74 := fun hv => hmiss ('J', 'j') (by decide) (Char.ext (UInt32.ext hv.symm))
    have n11 : c.toNat ≠ 75 := fun hv => hmiss ('K', 'k') (by decide) (Char.ext (UInt32.ext hv.symm))
    have n12 : c.toNat ≠ 76 := fun hv => hmiss ('L', 'l') (by decide) (Char.ext (UInt32.ext hv.symm))
    have n13 : c.toNat ≠ 77 := fun hv => hmiss ('M', 'm') (by decide) (Char.ext (UInt32.ext hv.symm))
    have n14 : c.toNat ≠ 78 := fun hv => hmiss ('N', 'n') (by decide) (Char.ext (UInt32.ext hv.symm))
    have n15 : c.toNat ≠ 79 := fun hv => hmiss ('O', 'o') (by decide) (Char.ext (UInt32.ext hv.symm))
    have n16 : c.toNat ≠ 80 := fun hv => hmiss ('P', 'p') (by decide) (Char.ext (UInt32.ext hv.symm))
    have n17 : c.toNat ≠ 81 := fun hv => hmiss ('Q', 'q') (by decide) (Char.ext (UInt32.ext hv.symm))
    have n18 : c.toNat ≠ 82 := fun hv => hmiss ('R', 'r') (by decide) (Char.ext (UInt32.ext hv.symm))
    have n19 : c.toNat ≠ 83 := fun hv => hmiss ('S', 's') (by decide) (Char.ext (UInt32.ext hv.symm))
    have n20 : c.toNat ≠ 84 := fun hv => hmiss ('T', 't') (by decide) (Char.ext (UInt32.ext hv.symm))
    have n21 : c.toNat ≠ 85 := fun hv => hmiss ('U', 'u') (by decide) (Char.ext (UInt32.ext hv.symm))
    have n22 : c.toNat ≠ 86 := fun hv => hmiss ('V', 'v') (by decide) (Char.ext (UInt32.ext hv.symm))
    have n23 : c.toNat ≠ 87 := fun hv => hmiss ('W', 'w') (by decide) (Char.ext (UInt32.ext hv.symm))
    have n24 : c.toNat ≠ 88 := fun hv => hmiss ('X', 'x') (by decide) (Char.ext (UInt32.ext hv.symm))
    have n25 : c.toNat ≠ 89 := fun hv => hmiss ('Y', 'y') (by decide) (Char.ext (UInt32.ext hv.symm))
    have n26 : c.toNat ≠ 90 := fun hv => hmiss ('Z', 'z') (by decide) (Char.ext (UInt32.ext hv.symm))
    omega

theorem py_lower_char_sep (c : Char) (hc : pin_sep_char c = false) :
    pin_sep_char (py_lower_char c) = false := by
  unfold py_lower_char
  cases hfind : upperLowerPairs.find? (fun p => p.1 = c) with
  | some p =>
    have hp : p ∈ upperLowerPairs := List.mem_of_find?_eq_some hfind
    have hall : ∀ q ∈ upperLowerPairs, pin_sep_char q.2 = false := by decide
    exact hall p hp
  | none => exact hc

theorem pin_name_props (x : String) :
    ∀ c ∈ (pin_name x).data,
      (¬('A' ≤ c ∧ c ≤ 'Z')) ∧ pin_sep_char c = false := by
  intro c hc
  simp only [pin_name, py_lower, pin_split_head, List.mem_map] at hc
  obtain ⟨d, hd, rfl⟩ := hc
  have hdsep : pin_sep_char d = false := by
    have := List.mem_takeWhile_imp hd
    simpa using this
  exact ⟨py_lower_char_not_upper d, py_lower_char_sep d hdsep⟩

/-! # Helper lemmas: requirement extraction on well-formed recipes -/

theorem wfSection_as_iterable (x : PyVal)
    (h : wfSectionVal (pyOr x (.list [])) = true) :
    wfEntryList (as_iterable (pyOr x (.list []))) = true := by
  by_cases ht : pyTruthy x
  · have hx : pyOr x (.list []) = x := by simp [pyOr, ht]
    rw [hx] at h ⊢
    cases x <;> simp_all [wfSectionVal, as_iterable, wfEntryList, wfEntry, pyTruthy]
  · have hx : pyOr x (.list []) = .list [] := by simp [pyOr, ht]
    rw [hx]
    rfl

theorem wfEntry_hashable (v : PyVal) (h : wfEntry v = true) :
    pyHashable v = true := by
  cases v <;> simp_all [wfEntry, pyHashable]

theorem ddUpdateH_ok (acc : List (String × List PyVal)) (k : String)
    (xs : List PyVal) (hx : wfEntryList xs = true) :
    ddUpdateH acc k xs = .ok (ddUpdate acc k xs) := by
  unfold ddUpdateH
  cases hf : xs.find? (fun x => !pyHashable x) with
  | some x =>
    have hmem := List.find?_some hf
    have hx2 := (List.all_eq_true.mp hx) x (List.mem_of_find?_eq_some hf)
    rw [wfEntry_hashable x hx2] at hmem
    cases hmem
  | none => rfl

theorem ddUpdateH_ok_eq (acc : List (String × List PyVal)) (k : String)
    (xs : List PyVal) (acc2 : List (String × List PyVal))
    (h : ddUpdateH acc k xs = .ok acc2) : acc2 = ddUpdate acc k xs := by
  unfold ddUpdateH at h
  cases hf : xs.find? (fun x => !pyHashable x) with
  | some x =>
    rw [hf] at h
    cases h
  | none =>
    rw [hf] at h
    cases h
    rfl

theorem wfTest_expectList (x : PyVal)
    (h : wfTestVal (pyOr x (.list [])) = true) :
    ∃ xs, expectList (pyOr x (.list [])) = .ok xs ∧ wfEntryList xs = true := by
  by_cases ht : pyTruthy x
  · have hx : pyOr x (.list []) = x := by simp [pyOr, ht]
    rw [hx] at h ⊢
    cases x with
    | list xs => exact ⟨xs, rfl, by simpa [wfTestVal] using h⟩
    | none => simp [pyTruthy] at ht
    | bool b =>
      simp only [wfTestVal, pyTruthy, Bool.not_eq_true'] at h
      simp [pyTruthy, h] at ht
    | int n =>
      simp only [wfTestVal, pyTruthy] at h
      simp_all [pyTruthy]
    | str s2 =>
      simp only [wfTestVal, pyTruthy] at h
      simp_all [pyTruthy]
    | dict d =>
      simp only [wfTestVal, pyTruthy] at h
      simp_all [pyTruthy]
    | strset ss =>
      simp only [wfTestVal, pyTruthy] at h
      simp_all [pyTruthy]
    | reqdict d =>
      simp only [wfTestVal, pyTruthy] at h
      simp_all [pyTruthy]
  · have hx : pyOr x (.list []) = .list [] := by simp [pyOr, ht]
    rw [hx]
    exact ⟨[], rfl, rfl⟩

theorem ddUpdate_wf (acc : List (String × List PyVal)) (k : String)
    (xs : List PyVal)
    (ha : ∀ kv ∈ acc, wfEntryList kv.2 = true) (hx : wfEntryList xs = true) :
    ∀ kv ∈ ddUpdate acc k xs, wfEntryList kv.2 = true := by
  induction acc with
  | nil =>
    intro kv hkv
    simp only [ddUpdate, List.mem_singleton] at hkv
    subst hkv
    exact hx
  | cons e rest ih =>
    obtain ⟨ek, evs⟩ := e
    by_cases he : ek = k
    · intro kv hkv
      simp only [ddUpdate, if_pos he] at hkv
      rcases List.mem_cons.mp hkv with h1 | h2
      · rw [h1]
        have hev : wfEntryList evs = true := ha (ek, evs) (List.mem_cons_self _ _)
        simp only [wfEntryList, List.all_append] at *
        simp [hev, hx]
      · exact ha _ (List.mem_cons_of_mem _ h2)
    · intro kv hkv
      simp only [ddUpdate, if_neg he] at hkv
      rcases List.mem_cons.mp hkv with h1 | h2
      · rw [h1]
        exact ha (ek, evs) (List.mem_cons_self _ _)
      · exact ih (fun kv2 hkv2 => ha kv2 (List.mem_cons_of_mem _ hkv2)) _ h2

theorem finalizeSection_wf (vs : List PyVal) (h : wfEntryList vs = true) :
    ∃ strs, finalizeSection vs = .ok strs ∧ ∀ nm ∈ strs, nm ≠ "" := by
  induction vs with
  | nil => exact ⟨[], rfl, by simp⟩
  | cons v vs ih =>
    simp only [wfEntryList, List.all_cons, Bool.and_eq_true] at h
    obtain ⟨hv, hvs⟩ := h
    obtain ⟨strs, hstrs, hne⟩ := ih hvs
    by_cases ht : pyTruthy v
    · have hstr : ∃ nm, v = PyVal.str nm ∧ nm ≠ "" := by
        cases v <;> simp_all [wfEntry, pyTruthy]
      obtain ⟨nm, rfl, hnm⟩ := hstr
      refine ⟨nm :: strs, ?_, ?_⟩
      · unfold finalizeSection at hstrs ⊢
        rw [List.filter_cons, if_pos ht, List.mapM_cons, hstrs]
        rfl
      · intro x hx
        rcases List.mem_cons.mp hx with rfl | hx2
        · exact hnm
        · exact hne _ hx2
    · refine ⟨strs, ?_, hne⟩
      unfold finalizeSection at hstrs ⊢
      rw [List.filter_cons, if_neg ht]
      exact hstrs

theorem pyOr_result_truthy (x d r : PyVal) (h : pyOr x d = r) :
    r = d ∨ pyTruthy r = true := by
  unfold pyOr at h
  by_cases ht : pyTruthy x
  · right
    rw [if_pos ht] at h
    rw [← h]
    exact ht
  · left
    rw [if_neg ht] at h
    exact h.symm

theorem extractBlock_wf (st : List (String × List PyVal) × Bool) (b : PyVal)
    (hst : ∀ kv ∈ st.1, wfEntryList kv.2 = true) (hb : wfBlock b = true) :
    ∃ st2, extractBlock st b = .ok st2 ∧
      ∀ kv ∈ st2.1, wfEntryList kv.2 = true := by
  obtain ⟨acc, strong⟩ := st
  cases b with
  | dict bd =>
    simp only [wfBlock, Bool.and_eq_true] at hb
    obtain ⟨⟨hreq, htest⟩, hbuild⟩ := hb
    simp only at hst
    cases hreqv : pyOr (getD bd "requirements" (.dict [])) (.dict []) with
    | list xs =>
      rw [hreqv] at hreq
      have hwx : wfEntryList xs = true := by simpa [wfReqVal] using hreq
      refine ⟨(ddUpdate acc "run" xs, strong), ?_, ?_⟩
      · simp [extractBlock, hreqv, ddUpdateH_ok, hwx, Bind.bind, Except.bind]
      · exact ddUpdate_wf acc "run" xs hst hwx
    | dict rd =>
      rw [hreqv] at hreq
      simp only [wfReqVal, Bool.and_eq_true] at hreq
      obtain ⟨⟨hb1, hh1⟩, hr1⟩ := hreq
      cases htd : getD bd "test" (.dict []) with
      | dict td =>
        rw [htd] at htest
        simp only [Bool.and_eq_true] at htest
        obtain ⟨ht1, ht2⟩ := htest
        obtain ⟨treq, htreq, hwf1⟩ := wfTest_expectList _ ht1
        obtain ⟨trqs, htrqs, hwf2⟩ := wfTest_expectList _ ht2
        cases hbv : pyOr (getD bd "build" (.dict [])) (.dict []) with
        | dict bdd =>
          refine ⟨(ddUpdate (ddUpdate (ddUpdate (ddUpdate (ddUpdate acc
              "build" (as_iterable (pyOr (getD rd "build" (.list [])) (.list []))))
              "host" (as_iterable (pyOr (getD rd "host" (.list [])) (.list []))))
              "run" (as_iterable (pyOr (getD rd "run" (.list [])) (.list []))))
              "test" treq) "test" trqs,
            strong || (match getD bdd "run_exports" (.dict []) with
              | .dict red => pyTruthy (getD red "strong" .none)
              | _ => false)), ?_, ?_⟩
          · simp [extractBlock, hreqv, htd, htreq, htrqs, hbv, ddUpdateH_ok,
              wfSection_as_iterable _ hb1, wfSection_as_iterable _ hh1,
              wfSection_as_iterable _ hr1, hwf1, hwf2, Bind.bind, Except.bind]
          · apply ddUpdate_wf _ _ _ _ hwf2
            apply ddUpdate_wf _ _ _ _ hwf1
            apply ddUpdate_wf _ _ _ _ (wfSection_as_iterable _ hr1)
            apply ddUpdate_wf _ _ _ _ (wfSection_as_iterable _ hh1)
            exact ddUpdate_wf _ _ _ hst (wfSection_as_iterable _ hb1)
        | none =>
          rcases pyOr_result_truthy _ _ _ hbv with h | h
          · exact absurd h (by simp)
          · simp [pyTruthy] at h
        | bool bb =>
          rw [hbv] at hbuild
          rcases pyOr_result_truthy _ _ _ hbv with h | h
          · exact absurd h (by simp)
          · simp at hbuild
        | int n =>
          rw [hbv] at hbuild
          simp at hbuild
        | str s2 =>
          rw [hbv] at hbuild
          simp at hbuild
        | list l =>
          rw [hbv] at hbuild
          simp at hbuild
        | strset ss =>
          rw [hbv] at hbuild
          simp at hbuild
        | reqdict rdd =>
          rw [hbv] at hbuild
          simp at hbuild
      | none => rw [htd] at htest; simp at htest
      | bool bb => rw [htd] at htest; simp at htest
      | int n => rw [htd] at htest; simp at htest
      | str s2 => rw [htd] at htest; simp at htest
      | list l => rw [htd] at htest; simp at htest
      | strset ss => rw [htd] at htest; simp at htest
      | reqdict rdd => rw [htd] at htest; simp at htest
    | none =>
      rcases pyOr_result_truthy _ _ _ hreqv with h | h
      · exact absurd h (by simp)
      · simp [pyTruthy] at h
    | bool bb =>
      rw [hreqv] at hreq
      rcases pyOr_result_truthy _ _ _ hreqv with h | h
      · exact absurd h (by simp)
      · simp only [wfReqVal, pyTruthy] at hreq
        simp_all [pyTruthy]
    | int n =>
      rw [hreqv] at hreq
      rcases pyOr_result_truthy _ _ _ hreqv with h | h
      · exact absurd h (by simp)
      · simp only [wfReqVal, pyTruthy] at hreq
        simp_all [pyTruthy]
    | str s2 =>
      rw [hreqv] at hreq
      rcases pyOr_result_truthy _ _ _ hreqv with h | h
      · exact absurd h (by simp)
      · simp only [wfReqVal, pyTruthy] at hreq
        simp_all [pyTruthy]
    | strset ss =>
      rw [hreqv] at hreq
      rcases pyOr_result_truthy _ _ _ hreqv with h | h
      · exact absurd h (by simp)
      · simp only [wfReqVal, pyTruthy] at hreq
        simp_all [pyTruthy]
    | reqdict rdd =>
      rw [hreqv] at hreq
      rcases pyOr_result_truthy _ _ _ hreqv with h | h
      · exact absurd h (by simp)
      · simp only [wfReqVal, pyTruthy] at hreq
        simp_all [pyTruthy]
  | none => simp [wfBlock] at hb
  | bool bb => simp [wfBlock] at hb
  | int n => simp [wfBlock] at hb
  | str s2 => simp [wfBlock] at hb
  | list l => simp [wfBlock] at hb
  | strset ss => simp [wfBlock] at hb
  | reqdict rdd => simp [wfBlock] at hb

theorem extractFold_wf (metas : List PyVal)
    (st : List (String × List PyVal) × Bool)
    (hst : ∀ kv ∈ st.1, wfEntryList kv.2 = true)
    (hm : ∀ b ∈ metas, wfBlock b = true) :
    ∃ st2, metas.foldlM extractBlock st = .ok st2 ∧
      ∀ kv ∈ st2.1, wfEntryList kv.2 = true := by
  induction metas generalizing st with
  | nil => exact ⟨st, rfl, hst⟩
  | cons b metas ih =>
    obtain ⟨st1, hb1, hwf1⟩ := extractBlock_wf st b hst (hm b (by simp))
    obtain ⟨st2, hfold, hwf2⟩ :=
      ih st1 hwf1 (fun b2 hb2 => hm b2 (List.mem_cons_of_mem _ hb2))
    refine ⟨st2, ?_, hwf2⟩
    rw [List.foldlM_cons, hb1]
    simpa [Bind.bind, Except.bind] using hfold

theorem wfBlock_dict (b : PyVal) (h : wfBlock b = true) :
    ∃ od, b = PyVal.dict od := by
  cases b <;> simp_all [wfBlock]

theorem keepFilter_fold_wf (ks : Finset String) (outs acc : List PyVal)
    (hall : ∀ b ∈ outs, wfBlock b = true)
    (hacc : ∀ b ∈ acc, wfBlock b = true) :
    ∃ res, outs.foldlM (keepFilterStep ks) acc = .ok res ∧
      ∀ b ∈ res, wfBlock b = true := by
  induction outs generalizing acc with
  | nil => exact ⟨acc, rfl, hacc⟩
  | cons o outs ih =>
    have ho := hall o (by simp)
    obtain ⟨od, rfl⟩ := wfBlock_dict o ho
    rw [List.foldlM_cons]
    have hstep : keepFilterStep ks acc (PyVal.dict od) =
        .ok (if (match getD od "name" .none with
          | .str n => decide (n ∈ ks)
          | _ => false) then acc ++ [PyVal.dict od] else acc) := by
      simp [keepFilterStep, Bind.bind, Except.bind]
    rw [hstep]
    have hacc2 : ∀ b ∈ (if (match getD od "name" .none with
        | .str n => decide (n ∈ ks)
        | _ => false) then acc ++ [PyVal.dict od] else acc), wfBlock b = true := by
      intro b hb
      by_cases hc : (match getD od "name" .none with
        | .str n => decide (n ∈ ks)
        | _ => false) = true
      · rw [if_pos hc] at hb
        rcases List.mem_append.mp hb with h1 | h2
        · exact hacc _ h1
        · rw [List.mem_singleton.mp h2]
          exact ho
      · rw [if_neg hc] at hb
        exact hacc _ hb
    obtain ⟨res, hres, hwf⟩ :=
      ih _ (fun b2 hb2 => hall b2 (List.mem_cons_of_mem _ hb2)) hacc2
    refine ⟨res, ?_, hwf⟩
    simpa [Bind.bind, Except.bind] using hres

theorem extractMetas_wf (meta_yaml : Dict) (keep : Option (Finset String))
    (h : wfRecipe meta_yaml = true) :
    ∃ metas, extractMetas meta_yaml keep = .ok metas ∧
      ∀ b ∈ metas, wfBlock b = true := by
  simp only [wfRecipe, Bool.and_eq_true] at h
  obtain ⟨hroot, houts⟩ := h
  cases hov : getD meta_yaml "outputs" (.list []) with
  | list outs =>
    rw [hov] at houts
    have houts2 : ∀ b ∈ outs, wfBlock b = true := by
      simpa [List.all_eq_true] using houts
    have hnone : extractMetas meta_yaml Option.none =
        Except.ok (PyVal.dict meta_yaml :: outs) := by
      simp [extractMetas, hov, expectList, Bind.bind, Except.bind]
    have hnoneRes : ∀ b ∈ PyVal.dict meta_yaml :: outs, wfBlock b = true := by
      intro b hb
      rcases List.mem_cons.mp hb with rfl | h2
      · exact hroot
      · exact houts2 _ h2
    cases keep with
    | none => exact ⟨_, hnone, hnoneRes⟩
    | some ks =>
      by_cases hk : ks.card ≠ 0
      · have hlist : ∃ outs2, expectList (pyOr (PyVal.list outs) (.list [])) =
            .ok outs2 ∧ ∀ b ∈ outs2, wfBlock b = true := by
          by_cases hne : outs.isEmpty
          · rw [List.isEmpty_iff.mp hne]
            exact ⟨[], rfl, by simp⟩
          · refine ⟨outs, ?_, houts2⟩
            simp [pyOr, pyTruthy, expectList, hne]
        obtain ⟨outs2, houts2e, houts2wf⟩ := hlist
        obtain ⟨res, hres, hwfres⟩ := keepFilter_fold_wf ks outs2 [] houts2wf (by simp)
        refine ⟨res, ?_, hwfres⟩
        simp only [extractMetas, hov, if_pos hk]
        rw [houts2e]
        simpa [Bind.bind, Except.bind] using hres
      · refine ⟨_, ?_, hnoneRes⟩
        rw [← hnone]
        simp [extractMetas, hk]
  | none => simp [hov] at houts
  | bool bb => simp [hov] at houts
  | int n => simp [hov] at houts
  | str s2 => simp [hov] at houts
  | dict d => simp [hov] at houts
  | strset ss => simp [hov] at houts
  | reqdict rd => simp [hov] at houts

theorem finalizeEntries_wf (acc : List (String × List PyVal))
    (ha : ∀ kv ∈ acc, wfEntryList kv.2 = true) :
    ∃ fin, acc.mapM finalizeEntry = .ok fin ∧
      fin.map Prod.fst = acc.map Prod.fst ∧
      ∀ kv ∈ fin, ∀ nm ∈ kv.2, nm ≠ "" := by
  induction acc with
  | nil => exact ⟨[], rfl, rfl, by simp⟩
  | cons kv acc ih =>
    obtain ⟨strs, hstrs, hne⟩ :=
      finalizeSection_wf kv.2 (ha kv (by simp))
    obtain ⟨fin, hfin, hkeys, hfne⟩ :=
      ih (fun kv2 h2 => ha kv2 (List.mem_cons_of_mem _ h2))
    refine ⟨(kv.1, strs) :: fin, ?_, ?_, ?_⟩
    · rw [List.mapM_cons]
      have hentry : finalizeEntry kv = .ok (kv.1, strs) := by
        simp [finalizeEntry, hstrs, Bind.bind, Except.bind]
      rw [hentry, hfin]
      rfl
    · simp [hkeys]
    · intro kv2 h2 nm hnm
      rcases List.mem_cons.mp h2 with rfl | h3
      · exact hne nm hnm
      · exact hfne kv2 h3 nm hnm

theorem ddUpdate_keys_self (acc : List (String × List PyVal)) (k : String)
    (xs : List PyVal) : k ∈ (ddUpdate acc k xs).map Prod.fst := by
  induction acc with
  | nil => simp [ddUpdate]
  | cons e rest ih =>
    obtain ⟨ek, evs⟩ := e
    by_cases he : ek = k <;> simp [ddUpdate, he, ih]

theorem ddUpdate_keys_mono (acc : List (String × List PyVal)) (k k0 : String)
    (xs : List PyVal) (h : k0 ∈ acc.map Prod.fst) :
    k0 ∈ (ddUpdate acc k xs).map Prod.fst := by
  induction acc with
  | nil => simp at h
  | cons e rest ih =>
    obtain ⟨ek, evs⟩ := e
    by_cases he : ek = k
    · simp only [ddUpdate, if_pos he, List.map_cons, List.mem_cons] at h ⊢
      rcases h with h | h
      · left
        rw [← he]
        exact h
      · right
        exact h
    · simp only [ddUpdate, if_neg he, List.map_cons, List.mem_cons] at h ⊢
      rcases h with h | h
      · left
        exact h
      · right
        exact ih h

/-- Inversion of a successful `extractBlock` call: the accumulated dict is
either a single `run` update (bare-list requirements) or the five-section
update chain (mapping-form requirements); list-form and dict-form are told
apart by `isDictFormReq`. -/
theorem extractBlock_shape (st : List (String × List PyVal) × Bool)
    (b : PyVal) (st2 : List (String × List PyVal) × Bool)
    (h : extractBlock st b = .ok st2) :
    (isDictFormReq b = false ∧ ∃ xs, st2.1 = ddUpdate st.1 "run" xs) ∨
    (isDictFormReq b = true ∧ ∃ l1 l2 l3 l4 l5, st2.1 =
      ddUpdate (ddUpdate (ddUpdate (ddUpdate (ddUpdate st.1
        "build" l1) "host" l2) "run" l3) "test" l4) "test" l5) := by
  cases b with
  | dict bd =>
    cases hreqv : pyOr (getD bd "requirements" (.dict [])) (.dict []) with
    | list xs =>
      cases hdd : ddUpdateH st.1 "run" xs with
      | error e => simp [extractBlock, hreqv, hdd] at h
      | ok acc1 =>
        simp only [extractBlock, hreqv, hdd, Except.ok.injEq] at h
        left
        refine ⟨by simp [isDictFormReq, hreqv], xs, ?_⟩
        rw [← h]
        exact ddUpdateH_ok_eq _ _ _ _ hdd
    | dict rd =>
      cases hd1 : ddUpdateH st.1 "build"
          (as_iterable (pyOr (getD rd "build" (.list [])) (.list []))) with
      | error e => simp [extractBlock, hreqv, hd1] at h
      | ok acc1 =>
        cases hd2 : ddUpdateH acc1 "host"
            (as_iterable (pyOr (getD rd "host" (.list [])) (.list []))) with
        | error e => simp [extractBlock, hreqv, hd1, hd2] at h
        | ok acc2 =>
          cases hd3 : ddUpdateH acc2 "run"
              (as_iterable (pyOr (getD rd "run" (.list [])) (.list []))) with
          | error e => simp [extractBlock, hreqv, hd1, hd2, hd3] at h
          | ok acc3 =>
            cases htd : getD bd "test" (.dict []) with
            | dict td =>
              cases htreq : expectList (pyOr (getD td "requirements" (.list [])) (.list [])) with
              | error e => simp [extractBlock, hreqv, hd1, hd2, hd3, htd, htreq] at h
              | ok treq =>
                cases hd4 : ddUpdateH acc3 "test" treq with
                | error e =>
                  simp [extractBlock, hreqv, hd1, hd2, hd3, htd, htreq, hd4] at h
                | ok acc4 =>
                  cases htrqs : expectList (pyOr (getD td "requires" (.list [])) (.list [])) with
                  | error e =>
                    simp [extractBlock, hreqv, hd1, hd2, hd3, htd, htreq, hd4, htrqs] at h
                  | ok trqs =>
                    cases hd5 : ddUpdateH acc4 "test" trqs with
                    | error e =>
                      simp [extractBlock, hreqv, hd1, hd2, hd3, htd, htreq, hd4,
                        htrqs, hd5] at h
                    | ok acc5 =>
                      cases hbv : pyOr (getD bd "build" (.dict [])) (.dict []) with
                      | dict bdd =>
                        simp only [extractBlock, hreqv, hd1, hd2, hd3, htd, htreq,
                          hd4, htrqs, hd5, hbv, Except.ok.injEq] at h
                        right
                        refine ⟨by simp [isDictFormReq, hreqv],
                          as_iterable (pyOr (getD rd "build" (.list [])) (.list [])),
                          as_iterable (pyOr (getD rd "host" (.list [])) (.list [])),
                          as_iterable (pyOr (getD rd "run" (.list [])) (.list [])),
                          treq, trqs, ?_⟩
                        rw [← h]
                        have e1 := ddUpdateH_ok_eq _ _ _ _ hd1
                        have e2 := ddUpdateH_ok_eq _ _ _ _ hd2
                        have e3 := ddUpdateH_ok_eq _ _ _ _ hd3
                        have e4 := ddUpdateH_ok_eq _ _ _ _ hd4
                        have e5 := ddUpdateH_ok_eq _ _ _ _ hd5
                        rw [e5, e4, e3, e2, e1]
                      | none =>
                        simp [extractBlock, hreqv, hd1, hd2, hd3, htd, htreq, hd4,
                          htrqs, hd5, hbv] at h
                      | bool bb =>
                        simp [extractBlock, hreqv, hd1, hd2, hd3, htd, htreq, hd4,
                          htrqs, hd5, hbv] at h
                      | int n =>
                        simp [extractBlock, hreqv, hd1, hd2, hd3, htd, htreq, hd4,
                          htrqs, hd5, hbv] at h
                      | str s2 =>
                        simp [extractBlock, hreqv, hd1, hd2, hd3, htd, htreq, hd4,
                          htrqs, hd5, hbv] at h
                      | list l =>
                        simp [extractBlock, hreqv, hd1, hd2, hd3, htd, htreq, hd4,
                          htrqs, hd5, hbv] at h
                      | strset ss =>
                        simp [extractBlock, hreqv, hd1, hd2, hd3, htd, htreq, hd4,
                          htrqs, hd5, hbv] at h
                      | reqdict rd2 =>
                        simp [extractBlock, hreqv, hd1, hd2, hd3, htd, htreq, hd4,
                          htrqs, hd5, hbv] at h
            | none => simp [extractBlock, hreqv, hd1, hd2, hd3, htd] at h
            | bool bb => simp [extractBlock, hreqv, hd1, hd2, hd3, htd] at h
            | int n => simp [extractBlock, hreqv, hd1, hd2, hd3, htd] at h
            | str s2 => simp [extractBlock, hreqv, hd1, hd2, hd3, htd] at h
            | list l => simp [extractBlock, hreqv, hd1, hd2, hd3, htd] at h
            | strset ss => simp [extractBlock, hreqv, hd1, hd2, hd3, htd] at h
            | reqdict rd2 => simp [extractBlock, hreqv, hd1, hd2, hd3, htd] at h
    | none => simp [extractBlock, hreqv] at h
    | bool bb => simp [extractBlock, hreqv] at h
    | int n => simp [extractBlock, hreqv] at h
    | str s2 => simp [extractBlock, hreqv] at h
    | strset ss => simp [extractBlock, hreqv] at h
    | reqdict rd2 => simp [extractBlock, hreqv] at h
  | none => simp [extractBlock] at h
  | bool bb => simp [extractBlock] at h
  | int n => simp [extractBlock] at h
  | str s2 => simp [extractBlock] at h
  | list l => simp [extractBlock] at h
  | strset ss => simp [extractBlock] at h
  | reqdict rd2 => simp [extractBlock] at h

theorem extractBlock_keys_mono (st : List (String × List PyVal) × Bool)
    (b : PyVal) (st2 : List (String × List PyVal) × Bool)
    (h : extractBlock st b = .ok st2) (k0 : String)
    (hk : k0 ∈ st.1.map Prod.fst) : k0 ∈ st2.1.map Prod.fst := by
  rcases extractBlock_shape st b st2 h with ⟨_, xs, hsh⟩ | ⟨_, l1, l2, l3, l4, l5, hsh⟩
  · rw [hsh]
    exact ddUpdate_keys_mono _ _ _ _ hk
  · rw [hsh]
    exact ddUpdate_keys_mono _ _ _ _ (ddUpdate_keys_mono _ _ _ _
      (ddUpdate_keys_mono _ _ _ _ (ddUpdate_keys_mono _ _ _ _
        (ddUpdate_keys_mono _ _ _ _ hk))))

theorem extractBlock_dictform_keys (st : List (String × List PyVal) × Bool)
    (b : PyVal) (st2 : List (String × List PyVal) × Bool)
    (h : extractBlock st b = .ok st2) (hb : isDictFormReq b = true) :
    ∀ sec ∈ ["build", "host", "run", "test"], sec ∈ st2.1.map Prod.fst := by
  rcases extractBlock_shape st b st2 h with ⟨hf, _⟩ | ⟨_, l1, l2, l3, l4, l5, hsh⟩
  · rw [hb] at hf
    cases hf
  · intro sec hsec
    rw [hsh]
    have hsec4 : sec = "build" ∨ sec = "host" ∨ sec = "run" ∨ sec = "test" := by
      simpa using hsec
    rcases hsec4 with rfl | rfl | rfl | rfl
    · exact ddUpdate_keys_mono _ _ _ _ (ddUpdate_keys_mono _ _ _ _
        (ddUpdate_keys_mono _ _ _ _ (ddUpdate_keys_mono _ _ _ _
          (ddUpdate_keys_self _ _ _))))
    · exact ddUpdate_keys_mono _ _ _ _ (ddUpdate_keys_mono _ _ _ _
        (ddUpdate_keys_mono _ _ _ _ (ddUpdate_keys_self _ _ _)))
    · exact ddUpdate_keys_mono _ _ _ _ (ddUpdate_keys_mono _ _ _ _
        (ddUpdate_keys_self _ _ _))
    · exact ddUpdate_keys_self _ _ _

theorem extractFold_keys (metas : List PyVal)
    (st st2 : List (String × List PyVal) × Bool)
    (h : metas.foldlM extractBlock st = .ok st2) :
    (∀ k0 ∈ st.1.map Prod.fst, k0 ∈ st2.1.map Prod.fst) ∧
    (∀ b ∈ metas, isDictFormReq b = true →
      ∀ sec ∈ ["build", "host", "run", "test"], sec ∈ st2.1.map Prod.fst) := by
  induction metas generalizing st with
  | nil =>
    cases h
    exact ⟨fun k0 hk => hk, by simp⟩
  | cons b metas ih =>
    rw [List.foldlM_cons] at h
    cases hb1 : extractBlock st b with
    | error e =>
      rw [hb1] at h
      exact absurd h (by simp [Bind.bind, Except.bind])
    | ok st1 =>
      rw [hb1] at h
      have h2 : metas.foldlM extractBlock st1 = .ok st2 := by
        simpa [Bind.bind, Except.bind] using h
      obtain ⟨hmono, hdict⟩ := ih st1 h2
      constructor
      · intro k0 hk
        exact hmono k0 (extractBlock_keys_mono st b st1 hb1 k0 hk)
      · intro b2 hb2 hform sec hsec
        rcases List.mem_cons.mp hb2 with rfl | h3
        · exact hmono sec (extractBlock_dictform_keys st b2 st1 hb1 hform sec hsec)
        · exact hdict b2 h3 hform sec hsec

/-! # Claim theorems: requirement extraction -/

/-- C7: for all well-formed requirement blocks — entries are strings or
`None`, the only shapes the spec admits; unhashable entries such as `[]`
or `{}` are outside well-formedness because `set.update` raises
`TypeError` on them — `_extract_requirements` never raises (`None` entries
in any requirements, `test.requirements` or `test.requires` list
included), and every name in the pin-stripped bundle is lower-case
(contains no ASCII upper-case letter) and contains none of the characters
space, `>`, `<`, `=`, `[`. -/
theorem extract_requirements_ok_names (meta_yaml : Dict)
    (keep : Option (Finset String)) (hwf : wfRecipe meta_yaml = true) :
    ∃ res, _extract_requirements meta_yaml keep = .ok res ∧
      ∀ kv ∈ res.2.1, ∀ nm ∈ kv.2, ∀ c ∈ nm.data,
        (¬('A' ≤ c ∧ c ≤ 'Z')) ∧ pin_sep_char c = false := by
  obtain ⟨metas, hmetas, hwfm⟩ := extractMetas_wf meta_yaml keep hwf
  obtain ⟨st2, hfold, hwfst⟩ := extractFold_wf metas ([], false) (by simp) hwfm
  obtain ⟨fin, hfin, hkeys, hne⟩ := finalizeEntries_wf st2.1 hwfst
  refine ⟨(fin.map (fun kv => (kv.1, kv.2.toFinset)),
           fin.map (fun kv => (kv.1, (kv.2.map pin_name).toFinset)), st2.2), ?_, ?_⟩
  · simp only [_extract_requirements, Bind.bind, Except.bind, hmetas, hfold, hfin]
  · intro kv hkv nm hnm
    simp only [List.mem_map] at hkv
    obtain ⟨kv0, hkv0, rfl⟩ := hkv
    simp only [List.mem_toFinset, List.mem_map] at hnm
    obtain ⟨x, hx, rfl⟩ := hnm
    exact pin_name_props x

/-- Witness for C7 at a concrete recipe with a `None` entry and a pinned,
mixed-case requirement. -/
theorem extract_requirements_ok_names_witness :
    ∃ res, _extract_requirements
        [("requirements", PyVal.dict
            [("build", PyVal.list [PyVal.str "NumPy >=1.20", PyVal.none]),
             ("run", PyVal.list [PyVal.str "python"])])]
        Option.none = .ok res ∧
      ∀ kv ∈ res.2.1, ∀ nm ∈ kv.2, ∀ c ∈ nm.data,
        (¬('A' ≤ c ∧ c ≤ 'Z')) ∧ pin_sep_char c = false :=
  extract_requirements_ok_names
    [("requirements", PyVal.dict
        [("build", PyVal.list [PyVal.str "NumPy >=1.20", PyVal.none]),
         ("run", PyVal.list [PyVal.str "python"])])]
    Option.none (by decide)

/-- C9 counterexample: a recipe whose `requirements` is a legacy bare list
produces a bundle containing only the key `run` — the keys `build`, `host`
and `test` are absent, contrary to the claim that every bundle carries all
four section keys. -/
theorem extract_four_sections_counterexample :
    (_extract_requirements [("requirements", PyVal.list [PyVal.str "numpy"])]
        Option.none).toOption.map (fun r => r.1.map Prod.fst) = some ["run"] ∧
    ¬("build" ∈ ["run"] ∧ "host" ∈ ["run"] ∧ "test" ∈ ["run"]) := by
  constructor
  · decide
  · decide

/-- C9 amended: for every well-formed recipe (entries strings or `None`;
unhashable entries make `set.update` raise `TypeError` and are outside
well-formedness), when at least one kept block carries a mapping-form
`requirements` (after the `or {}` normalisation), the returned bundle
contains all four section keys `build`, `host`, `run` and `test`; `None`
and empty-string entries are dropped from every set, so the empty string
is never a member.  Blocks with bare-list requirements populate only
`run`. -/
theorem extract_four_sections (meta_yaml : Dict)
    (keep : Option (Finset String)) (metas : List PyVal)
    (hwf : wfRecipe meta_yaml = true)
    (hmetas : extractMetas meta_yaml keep = .ok metas)
    (hdict : ∃ b ∈ metas, isDictFormReq b = true) :
    ∃ res, _extract_requirements meta_yaml keep = .ok res ∧
      (∀ sec ∈ ["build", "host", "run", "test"], sec ∈ res.1.map Prod.fst) ∧
      (∀ kv ∈ res.1, "" ∉ kv.2) := by
  obtain ⟨metas2, hmetas2, hwfm⟩ := extractMetas_wf meta_yaml keep hwf
  rw [hmetas2] at hmetas
  injection hmetas with hmeq
  subst hmeq
  obtain ⟨st2, hfold, hwfst⟩ := extractFold_wf metas2 ([], false) (by simp) hwfm
  obtain ⟨fin, hfin, hkeys, hne⟩ := finalizeEntries_wf st2.1 hwfst
  refine ⟨(fin.map (fun kv => (kv.1, kv.2.toFinset)),
           fin.map (fun kv => (kv.1, (kv.2.map pin_name).toFinset)), st2.2), ?_, ?_, ?_⟩
  · simp only [_extract_requirements, Bind.bind, Except.bind, hmetas2, hfold, hfin]
  · intro sec hsec
    obtain ⟨b0, hb0, hform⟩ := hdict
    have hsec2 : sec ∈ st2.1.map Prod.fst :=
      (extractFold_keys metas2 ([], false) st2 hfold).2 b0 hb0 hform sec hsec
    simp only [List.map_map]
    have hfst : (Prod.fst ∘ fun kv : String × List String =>
        (kv.1, kv.2.toFinset)) = Prod.fst := rfl
    rw [hfst, hkeys]
    exact hsec2
  · intro kv hkv hmem
    simp only [List.mem_map] at hkv
    obtain ⟨kv0, hkv0, rfl⟩ := hkv
    simp only [List.mem_toFinset] at hmem
    exact hne kv0 hkv0 "" hmem rfl

/-- Witness for the amended C9 at a concrete recipe whose root block has
mapping-form requirements. -/
theorem extract_four_sections_witness :
    ∃ res, _extract_requirements
        [("requirements", PyVal.dict [("run", PyVal.list [PyVal.str "python"])])]
        Option.none = .ok res ∧
      (∀ sec ∈ ["build", "host", "run", "test"], sec ∈ res.1.map Prod.fst) ∧
      (∀ kv ∈ res.1, "" ∉ kv.2) :=
  extract_four_sections
    [("requirements", PyVal.dict [("run", PyVal.list [PyVal.str "python"])])]
    Option.none
    [PyVal.dict [("requirements", PyVal.dict [("run", PyVal.list [PyVal.str "python"])])]]
    (by decide) (by rfl)
    ⟨PyVal.dict [("requirements", PyVal.dict [("run", PyVal.list [PyVal.str "python"])])],
      by decide, by decide⟩

/-! # Helper lemmas: the layered merge -/

theorem lookupD_isSome_iff_mem_keys (d : Dict) (k : String) :
    (lookupD d k).isSome = true ↔ k ∈ d.map Prod.fst := by
  induction d with
  | nil => simp [lookupD]
  | cons e rest ih =>
    obtain ⟨ek, ev⟩ := e
    by_cases he : ek = k
    · subst he
      simp [lookupD]
    · simp only [lookupD, if_neg he, List.map_cons, List.mem_cons]
      rw [ih]
      constructor
      · intro h
        right
        exact h
      · intro h
        rcases h with h | h
        · exact absurd h.symm he
        · exact h

theorem mem_dedupFirst_aux [DecidableEq α] (xs acc : List α) (a : α) :
    a ∈ xs.foldl (fun acc k => if k ∈ acc then acc else acc ++ [k]) acc ↔
      a ∈ acc ∨ a ∈ xs := by
  induction xs generalizing acc with
  | nil => simp
  | cons x xs ih =>
    simp only [List.foldl_cons]
    by_cases hx : x ∈ acc
    · rw [if_pos hx, ih]
      simp only [List.mem_cons]
      constructor
      · rintro (h | h)
        · exact Or.inl h
        · exact Or.inr (Or.inr h)
      · rintro (h | rfl | h)
        · exact Or.inl h
        · exact Or.inl hx
        · exact Or.inr h
    · rw [if_neg hx, ih]
      simp only [List.mem_append, List.mem_singleton, List.mem_cons]
      tauto

theorem mem_dedupFirst [DecidableEq α] (xs : List α) (a : α) :
    a ∈ dedupFirst xs ↔ a ∈ xs := by
  unfold dedupFirst
  rw [mem_dedupFirst_aux]
  simp

theorem mem_allKeys (layers : List Dict) (k : String) :
    k ∈ allKeys layers ↔ ∃ d ∈ layers, (lookupD d k).isSome = true := by
  unfold allKeys
  rw [mem_dedupFirst]
  simp only [List.mem_flatten, List.mem_map]
  constructor
  · rintro ⟨l, ⟨d, hd, rfl⟩, hk⟩
    exact ⟨d, hd, (lookupD_isSome_iff_mem_keys d k).mpr hk⟩
  · rintro ⟨d, hd, hk⟩
    exact ⟨d.map Prod.fst, ⟨d, hd, rfl⟩, (lookupD_isSome_iff_mem_keys d k).mp hk⟩

theorem chainLookup_eq_none_of_not_mem (layers : List Dict) (k : String)
    (h : k ∉ allKeys layers) : chainLookup layers k = Option.none := by
  unfold chainLookup
  rw [List.findSome?_eq_none_iff]
  intro d hd
  rw [List.mem_reverse] at hd
  by_contra hne
  have : (lookupD d k).isSome = true := by
    cases hx : lookupD d k
    · exact absurd hx hne
    · simp
  exact h ((mem_allKeys layers k).mpr ⟨d, hd, this⟩)

theorem lookupD_filterMap (ks : List String) (F : String → Option PyVal)
    (k : String) :
    lookupD (ks.filterMap (fun k2 => (F k2).map (fun v => (k2, v)))) k =
      if k ∈ ks then F k else Option.none := by
  induction ks with
  | nil => simp [lookupD]
  | cons k2 ks ih =>
    by_cases he : k2 = k
    · subst he
      cases hF : F k2 with
      | none =>
        simp only [List.filterMap_cons, hF, Option.map_none']
        rw [ih]
        by_cases hk : k2 ∈ ks <;> simp [hk, hF]
      | some v =>
        simp only [List.filterMap_cons, hF, Option.map_some']
        simp [lookupD, hF]
    · cases hF : F k2 with
      | none =>
        simp only [List.filterMap_cons, hF, Option.map_none']
        rw [ih]
        by_cases hk : k ∈ ks <;> simp [hk, List.mem_cons, he, Ne.symm he]
      | some v =>
        simp only [List.filterMap_cons, hF, Option.map_some']
        rw [lookupD, if_neg he, ih]
        by_cases hk : k ∈ ks <;> simp [hk, List.mem_cons, he, Ne.symm he]

theorem lookupD_chainMerge (layers : List Dict) (k : String) :
    lookupD (chainMerge layers) k = chainLookup layers k := by
  unfold chainMerge
  rw [lookupD_filterMap]
  by_cases hk : k ∈ allKeys layers
  · rw [if_pos hk]
  · rw [if_neg hk, chainLookup_eq_none_of_not_mem layers k hk]

theorem chainLookup_last_wins (l1 : List Dict) (d : Dict) (l2 : List Dict)
    (k : String) (h2 : ∀ d2 ∈ l2, lookupD d2 k = Option.none)
    (hd : (lookupD d k).isSome = true) :
    chainLookup (l1 ++ d :: l2) k = lookupD d k := by
  unfold chainLookup
  rw [List.reverse_append, List.reverse_cons, List.append_assoc,
    List.findSome?_append, List.findSome?_append]
  have hl2 : l2.reverse.findSome? (fun d2 => lookupD d2 k) = Option.none := by
    rw [List.findSome?_eq_none_iff]
    intro d2 hd2
    rw [List.mem_reverse] at hd2
    rw [h2 d2 hd2]
  rw [hl2]
  obtain ⟨v, hv⟩ := Option.isSome_iff_exists.mp hd
  simp [List.findSome?_cons, hv]

theorem mem_insertSorted {α : Type} (le : α → α → Bool) (x a : α)
    (l : List α) : a ∈ insertSorted le x l ↔ a = x ∨ a ∈ l := by
  induction l with
  | nil => simp [insertSorted]
  | cons y ys ih =>
    by_cases hle : le y x
    · simp only [insertSorted, if_pos hle, List.mem_cons, ih]
      try tauto
    · simp only [insertSorted, if_neg hle, List.mem_cons]
      try tauto

theorem mem_stableSort {α : Type} (le : α → α → Bool) (xs : List α) (a : α) :
    a ∈ stableSort le xs ↔ a ∈ xs := by
  suffices h : ∀ acc, a ∈ xs.foldl (fun acc x => insertSorted le x acc) acc ↔
      a ∈ acc ∨ a ∈ xs by
    unfold stableSort
    rw [h []]
    simp
  induction xs with
  | nil => intro acc; simp
  | cons x xs ih =>
    intro acc
    simp only [List.foldl_cons]
    rw [ih (insertSorted le x acc), mem_insertSorted]
    simp only [List.mem_cons]
    tauto

/-! # Claim theorems: the variant merge -/

/-- C5: the merged `meta_yaml` layer set is the per-variant parsed recipes
sorted ascending by their `(platform, arch)` key (a stable ascending sort
of `zip(plat_arch, variant_yamls)`), and a top-level key present in any
variant resolves to the value of the latest (highest-sorted) layer that
defines it, taken verbatim — a shallow per-key override, not a deep
union. -/
theorem merged_meta_yaml_last_wins (pa : List (List String)) (vys : List Dict)
    (k : String) (l1 : List Dict) (d : Dict) (l2 : List Dict)
    (hsort : (stableSort (fun x y => listStrLE x.1 y.1) (pa.zip vys)).map Prod.snd
      = l1 ++ d :: l2)
    (hd : (lookupD d k).isSome = true)
    (hlater : ∀ d2 ∈ l2, lookupD d2 k = Option.none) :
    lookupD (chainMerge ((stableSort (fun x y => listStrLE x.1 y.1)
        (pa.zip vys)).map Prod.snd)) k = lookupD d k := by
  rw [hsort, lookupD_chainMerge]
  exact chainLookup_last_wins l1 d l2 k hlater hd

/-- Witness for C5: two variants sharing the top-level key `package`; the
merged view takes the value of the higher-sorted (`osx`) variant verbatim. -/
theorem merged_meta_yaml_last_wins_witness :
    lookupD (chainMerge ((stableSort (fun x y => listStrLE x.1 y.1)
        ([["osx", "64"], ["linux", "64"]].zip
          [[("package", PyVal.str "from-osx")],
           [("package", PyVal.str "from-linux")]])).map Prod.snd)) "package" =
      lookupD [("package", PyVal.str "from-osx")] "package" :=
  merged_meta_yaml_last_wins [["osx", "64"], ["linux", "64"]]
    [[("package", PyVal.str "from-osx")], [("package", PyVal.str "from-linux")]]
    "package" [[("package", PyVal.str "from-linux")]]
    [("package", PyVal.str "from-osx")] []
    (by decide) (by decide) (by decide)

/-! # Helper lemmas: the populate record -/

theorem lookupD_filter_stale (g : Dict) (k : String) (h : staleKey k = true) :
    lookupD (g.filter (fun e => !staleKey e.1)) k = Option.none := by
  induction g with
  | nil => rfl
  | cons e rest ih =>
    obtain ⟨ek, ev⟩ := e
    by_cases hek : staleKey ek = true
    · simp only [List.filter_cons, hek]
      simpa using ih
    · have hne : ek ≠ k := fun he => hek (he ▸ h)
      simp only [List.filter_cons]
      rw [Bool.not_eq_true] at hek
      simp only [hek]
      simp only [Bool.not_false, if_pos]
      rw [lookupD, if_neg hne]
      exact ih

theorem stale_of_req_suffix (k : String)
    (h : pyEndsWith k "requirements" = true) : staleKey k = true := by
  simp [staleKey, h]

theorem stale_of_meta_suffix (k : String)
    (h : pyEndsWith k "meta_yaml" = true) : staleKey k = true := by
  simp [staleKey, h]

/-! # Claim theorems: populate_feedstock_attributes -/

/-- C4: if layering all sorted per-variant parsed recipes yields an empty
merged view, `populate_feedstock_attributes` sets `parsing_error` to an
error string and returns early, and the returned record has no
`total_requirements` key — indeed no key ending in `requirements` at all,
every pre-existing one having been deleted beforehand. -/
theorem populate_empty_merge (render : RenderCall → Except PyExc Dict)
    (name : String) (sub_graph : Dict) (metaText : String)
    (conda_forge_yaml : Option Dict) (mark : Bool)
    (feedstock_dir : Option (String × List String))
    (pa : List (List String)) (vys : List Dict)
    (hrender : renderStage render metaText
        (prepTextStage metaText conda_forge_yaml (prepStage name sub_graph mark))
        feedstock_dir = .ok (pa, vys))
    (hempty : vys.all List.isEmpty = true) :
    ∃ r, populate_feedstock_attributes render name sub_graph (.text metaText)
        conda_forge_yaml mark feedstock_dir = .ok r ∧
      lookupD r "parsing_error" = some (.str "make_graph: Could not parse") ∧
      lookupD r "total_requirements" = Option.none ∧
      ∀ k, pyEndsWith k "requirements" = true → lookupD r k = Option.none := by
  have hlayers : ∀ d ∈ (stableSort (fun x y => listStrLE x.1 y.1)
      (pa.zip vys)).map Prod.snd, d = [] := by
    intro d hd
    obtain ⟨p, hp, rfl⟩ := List.mem_map.mp hd
    have hzip : p ∈ pa.zip vys := (mem_stableSort _ _ _).mp hp
    have hvy : p.2 ∈ vys := (List.of_mem_zip hzip).2
    have := (List.all_eq_true.mp hempty) p.2 hvy
    exact List.isEmpty_iff.mp (by simpa using this)
  have hkeys : allKeys ((stableSort (fun x y => listStrLE x.1 y.1)
      (pa.zip vys)).map Prod.snd) = [] := by
    rw [List.eq_nil_iff_forall_not_mem]
    intro k hk
    obtain ⟨d, hd, hsome⟩ := (mem_allKeys _ k).mp hk
    rw [hlayers d hd] at hsome
    simp [lookupD] at hsome
  have hempty2 : chainIsEmpty ((stableSort (fun x y => listStrLE x.1 y.1)
      (pa.zip vys)).map Prod.snd) = true := by
    simp [chainIsEmpty, hkeys]
  refine ⟨setKey (setKey (prepTextStage metaText conda_forge_yaml
      (prepStage name sub_graph mark)) "platforms"
      (.list (pa.map (fun k => .str (String.intercalate "_" k)))))
      "parsing_error" (.str "make_graph: Could not parse"), ?_, ?_, ?_, ?_⟩
  · simp only [populate_feedstock_attributes, Bind.bind, Except.bind, hrender,
      populate_after_render, hempty2, if_pos]
  · exact lookupD_setKey_self _ _ _
  · have h4 : pyEndsWith "total_requirements" "requirements" = true := by decide
    rw [lookupD_setKey_ne _ _ _ _ (by decide), lookupD_setKey_ne _ _ _ _ (by decide)]
    unfold prepTextStage
    cases conda_forge_yaml with
    | none =>
      rw [lookupD_setKey_ne _ _ _ _ (by decide)]
      exact lookupD_filter_stale _ _ (stale_of_req_suffix _ h4)
    | some cfd =>
      rw [lookupD_setKey_ne _ _ _ _ (by decide), lookupD_setKey_ne _ _ _ _ (by decide)]
      exact lookupD_filter_stale _ _ (stale_of_req_suffix _ h4)
  · intro k hk
    have h1 : k ≠ "parsing_error" := by
      rintro rfl
      exact absurd hk (by decide)
    have h2 : k ≠ "platforms" := by
      rintro rfl
      exact absurd hk (by decide)
    have h3 : k ≠ "raw_meta_yaml" := by
      rintro rfl
      exact absurd hk (by decide)
    have h5 : k ≠ "conda-forge.yml" := by
      rintro rfl
      exact absurd hk (by decide)
    rw [lookupD_setKey_ne _ _ _ _ h1, lookupD_setKey_ne _ _ _ _ h2]
    unfold prepTextStage
    cases conda_forge_yaml with
    | none =>
      rw [lookupD_setKey_ne _ _ _ _ h3]
      exact lookupD_filter_stale _ _ (stale_of_req_suffix _ hk)
    | some cfd =>
      rw [lookupD_setKey_ne _ _ _ _ h5, lookupD_setKey_ne _ _ _ _ h3]
      exact lookupD_filter_stale _ _ (stale_of_req_suffix _ hk)

/-- Witness for C4: a renderer producing empty parsed recipes for the three
default variants; the merged view is empty. -/
theorem populate_empty_merge_witness :
    ∃ r, populate_feedstock_attributes (fun _ => Except.ok []) "pkg"
        [("total_requirements", PyVal.reqdict [])] (.text "meta")
        (some []) false Option.none = .ok r ∧
      lookupD r "parsing_error" = some (.str "make_graph: Could not parse") ∧
      lookupD r "total_requirements" = Option.none ∧
      ∀ k, pyEndsWith k "requirements" = true → lookupD r k = Option.none :=
  populate_empty_merge (fun _ => Except.ok []) "pkg"
    [("total_requirements", PyVal.reqdict [])] "meta" (some []) false
    Option.none [["win", "64"], ["osx", "64"], ["linux", "64"]] [[], [], []]
    (by rfl) (by decide)

/-- C6: if the external renderer raises while rendering any variant,
`populate_feedstock_attributes` sets `parsing_error` to a message embedding
the exception text and its formatted traceback, and re-raises the same
exception; no `meta_yaml`, `total_requirements`, per-variant meta-yaml or
requirements key is populated in that call. -/
theorem populate_render_error (render : RenderCall → Except PyExc Dict)
    (name : String) (sub_graph : Dict) (metaText : String)
    (conda_forge_yaml : Option Dict) (mark : Bool)
    (feedstock_dir : Option (String × List String)) (e : PyExc)
    (hrender : renderStage render metaText
        (prepTextStage metaText conda_forge_yaml (prepStage name sub_graph mark))
        feedstock_dir = .error e) :
    ∃ r, populate_feedstock_attributes render name sub_graph (.text metaText)
        conda_forge_yaml mark feedstock_dir = .error (e, r) ∧
      lookupD r "parsing_error" = some (.str
        ("make_graph: render error " ++ e.msg ++ "\n" ++ e.trb)) ∧
      lookupD r "meta_yaml" = Option.none ∧
      lookupD r "total_requirements" = Option.none ∧
      (∀ k, pyEndsWith k "requirements" = true → lookupD r k = Option.none) ∧
      (∀ k, pyEndsWith k "meta_yaml" = true → k ≠ "raw_meta_yaml" →
        lookupD r k = Option.none) := by
  refine ⟨setKey (prepTextStage metaText conda_forge_yaml
      (prepStage name sub_graph mark)) "parsing_error"
      (.str ("make_graph: render error " ++ e.msg ++ "\n" ++ e.trb)),
      ?_, ?_, ?_, ?_, ?_, ?_⟩
  · simp only [populate_feedstock_attributes, Bind.bind, Except.bind, hrender]
  · exact lookupD_setKey_self _ _ _
  · rw [lookupD_setKey_ne _ _ _ _ (by decide)]
    unfold prepTextStage
    cases conda_forge_yaml with
    | none =>
      rw [lookupD_setKey_ne _ _ _ _ (by decide)]
      exact lookupD_filter_stale _ _ (by decide)
    | some cfd =>
      rw [lookupD_setKey_ne _ _ _ _ (by decide), lookupD_setKey_ne _ _ _ _ (by decide)]
      exact lookupD_filter_stale _ _ (by decide)
  · rw [lookupD_setKey_ne _ _ _ _ (by decide)]
    unfold prepTextStage
    cases conda_forge_yaml with
    | none =>
      rw [lookupD_setKey_ne _ _ _ _ (by decide)]
      exact lookupD_filter_stale _ _ (by decide)
    | some cfd =>
      rw [lookupD_setKey_ne _ _ _ _ (by decide), lookupD_setKey_ne _ _ _ _ (by decide)]
      exact lookupD_filter_stale _ _ (by decide)
  · intro k hk
    have h1 : k ≠ "parsing_error" := by
      rintro rfl
      exact absurd hk (by decide)
    have h3 : k ≠ "raw_meta_yaml" := by
      rintro rfl
      exact absurd hk (by decide)
    have h5 : k ≠ "conda-forge.yml" := by
      rintro rfl
      exact absurd hk (by decide)
    rw [lookupD_setKey_ne _ _ _ _ h1]
    unfold prepTextStage
    cases conda_forge_yaml with
    | none =>
      rw [lookupD_setKey_ne _ _ _ _ h3]
      exact lookupD_filter_stale _ _ (stale_of_req_suffix _ hk)
    | some cfd =>
      rw [lookupD_setKey_ne _ _ _ _ h5, lookupD_setKey_ne _ _ _ _ h3]
      exact lookupD_filter_stale _ _ (stale_of_req_suffix _ hk)
  · intro k hk hraw
    have h1 : k ≠ "parsing_error" := by
      rintro rfl
      exact absurd hk (by decide)
    have h5 : k ≠ "conda-forge.yml" := by
      rintro rfl
      exact absurd hk (by decide)
    rw [lookupD_setKey_ne _ _ _ _ h1]
    unfold prepTextStage
    cases conda_forge_yaml with
    | none =>
      rw [lookupD_setKey_ne _ _ _ _ hraw]
      exact lookupD_filter_stale _ _ (stale_of_meta_suffix _ hk)
    | some cfd =>
      rw [lookupD_setKey_ne _ _ _ _ h5, lookupD_setKey_ne _ _ _ _ hraw]
      exact lookupD_filter_stale _ _ (stale_of_meta_suffix _ hk)

/-- Witness for C6 with a renderer that raises on every variant. -/
theorem populate_render_error_witness :
    ∃ r, populate_feedstock_attributes
        (fun _ => Except.error ⟨.renderError, "boom", "Traceback (most recent call last)"⟩)
        "pkg" [("meta_yaml", PyVal.dict []), ("linux_64_requirements", PyVal.reqdict [])]
        (.text "meta") (some []) false Option.none =
        .error (⟨.renderError, "boom", "Traceback (most recent call last)"⟩, r) ∧
      lookupD r "parsing_error" = some (.str
        ("make_graph: render error " ++ "boom" ++ "\n" ++
          "Traceback (most recent call last)")) ∧
      lookupD r "meta_yaml" = Option.none ∧
      lookupD r "total_requirements" = Option.none ∧
      (∀ k, pyEndsWith k "requirements" = true → lookupD r k = Option.none) ∧
      (∀ k, pyEndsWith k "meta_yaml" = true → k ≠ "raw_meta_yaml" →
        lookupD r k = Option.none) :=
  populate_render_error
    (fun _ => Except.error ⟨.renderError, "boom", "Traceback (most recent call last)"⟩)
    "pkg" [("meta_yaml", PyVal.dict []), ("linux_64_requirements", PyVal.reqdict [])]
    "meta" (some []) false Option.none
    ⟨.renderError, "boom", "Traceback (most recent call last)"⟩ (by rfl)

/-! # Helper lemmas: record keys -/

theorem str_append_cancel_right (x y s : String) (h : x ++ s = y ++ s) :
    x = y := by
  have hd := congrArg String.data h
  rw [String.data_append, String.data_append] at hd
  have h2 := List.append_cancel_right hd
  cases x
  cases y
  exact congrArg String.mk h2

theorem pyEndsWith_append (x s : String) : pyEndsWith (x ++ s) s = true := by
  unfold pyEndsWith
  rw [String.data_append]
  exact (List.isSuffixOf_iff_suffix).mpr (List.suffix_append x.data s.data)

theorem ne_of_pyEndsWith (s k c : String) (hk : pyEndsWith k s = true)
    (hc : pyEndsWith c s = false) : k ≠ c := by
  intro he
  rw [he, hc] at hk
  cases hk

theorem pyEndsWith_excl (k s1 s2 : String) (h1 : pyEndsWith k s1 = true)
    (hc1 : ¬(s1.data <:+ s2.data)) (hc2 : ¬(s2.data <:+ s1.data)) :
    pyEndsWith k s2 = false := by
  by_contra h2
  rw [Bool.not_eq_false] at h2
  unfold pyEndsWith at h1 h2
  have hs1 := (List.isSuffixOf_iff_suffix).mp h1
  have hs2 := (List.isSuffixOf_iff_suffix).mp h2
  rcases List.suffix_or_suffix_of_suffix hs1 hs2 with h | h
  · exact hc1 h
  · exact hc2 h

theorem varkey_ne_total (p a : String) :
    (p ++ "_" ++ a) ++ "_requirements" ≠ "total_requirements" := by
  intro h
  have h2 : (p ++ "_" ++ a) ++ "_requirements" = "total" ++ "_requirements" := h
  have h3 : p ++ "_" ++ a = "total" := str_append_cancel_right _ _ _ h2
  have h4 := congrArg String.data h3
  rw [String.data_append, String.data_append] at h4
  have h5 : '_' ∈ ("total" : String).data := by
    rw [← h4]
    simp
  exact absurd h5 (by decide)

theorem variantStep_frame (name : String) (g g2 : Dict)
    (kv : List String × Dict) (k : String)
    (h : variantStep name g kv = .ok g2)
    (h1 : k ≠ String.intercalate "_" kv.1 ++ "_meta_yaml")
    (h2 : k ≠ String.intercalate "_" kv.1 ++ "_requirements") :
    lookupD g2 k = lookupD g k := by
  unfold variantStep at h
  cases hext : _extract_requirements kv.2 (BOOTSTRAP_MAPPINGS_get name) with
  | error e =>
    rw [hext] at h
    cases h
  | ok ext =>
    rw [hext] at h
    cases h
    rw [lookupD_setKey_ne _ _ _ _ h2, lookupD_setKey_ne _ _ _ _ h1]

theorem variantFold_frame (name : String) (pairs : List (List String × Dict))
    (g0 g1 : Dict) (k : String)
    (hfold : pairs.foldlM (variantStep name) g0 = .ok g1)
    (hk : ∀ kv ∈ pairs, k ≠ String.intercalate "_" kv.1 ++ "_meta_yaml" ∧
      k ≠ String.intercalate "_" kv.1 ++ "_requirements") :
    lookupD g1 k = lookupD g0 k := by
  induction pairs generalizing g0 with
  | nil =>
    cases hfold
    rfl
  | cons kv pairs ih =>
    rw [List.foldlM_cons] at hfold
    cases hstep : variantStep name g0 kv with
    | error pe =>
      rw [hstep] at hfold
      simp [Bind.bind, Except.bind] at hfold
    | ok ga =>
      rw [hstep] at hfold
      have hfold2 : pairs.foldlM (variantStep name) ga = .ok g1 := by
        simpa [Bind.bind, Except.bind] using hfold
      rw [ih ga hfold2 (fun kv2 h2 => hk kv2 (List.mem_cons_of_mem _ h2))]
      exact variantStep_frame name g0 ga kv k hstep
        (hk kv (by simp)).1 (hk kv (by simp)).2

theorem variantFold_lookup (name : String) (pairs : List (List String × Dict))
    (g0 g1 : Dict)
    (hfold : pairs.foldlM (variantStep name) g0 = .ok g1)
    (hNodup : (pairs.map (fun kv => String.intercalate "_" kv.1)).Nodup)
    (i : ℕ) (hi : i < pairs.length) :
    ∃ ext, _extract_requirements (pairs.get ⟨i, hi⟩).2
        (BOOTSTRAP_MAPPINGS_get name) = .ok ext ∧
      lookupD g1 (String.intercalate "_" (pairs.get ⟨i, hi⟩).1 ++ "_requirements") =
        some (.reqdict ext.2.1) := by
  induction pairs generalizing g0 i with
  | nil => exact absurd hi (by simp)
  | cons kv pairs ih =>
    rw [List.foldlM_cons] at hfold
    cases hstep : variantStep name g0 kv with
    | error pe =>
      rw [hstep] at hfold
      simp [Bind.bind, Except.bind] at hfold
    | ok ga =>
      rw [hstep] at hfold
      have hfold2 : pairs.foldlM (variantStep name) ga = .ok g1 := by
        simpa [Bind.bind, Except.bind] using hfold
      simp only [List.map_cons, List.nodup_cons] at hNodup
      obtain ⟨hpanNotMem, hNodup2⟩ := hNodup
      cases i with
      | zero =>
        have hs := hstep
        unfold variantStep at hs
        cases hext : _extract_requirements kv.2 (BOOTSTRAP_MAPPINGS_get name) with
        | error e =>
          rw [hext] at hs
          cases hs
        | ok ext =>
          rw [hext] at hs
          cases hs
          refine ⟨ext, hext, ?_⟩
          rw [variantFold_frame name pairs _ g1 _ hfold2 ?_]
          · exact lookupD_setKey_self _ _ _
          · intro kv2 h2
            constructor
            · exact ne_of_pyEndsWith "_requirements" _ _
                (pyEndsWith_append _ _)
                (pyEndsWith_excl _ "_meta_yaml" "_requirements"
                  (pyEndsWith_append _ _) (by decide) (by decide))
            · intro he
              have hpan : String.intercalate "_" kv.1 =
                  String.intercalate "_" kv2.1 :=
                str_append_cancel_right _ _ _ he
              exact hpanNotMem (hpan ▸ (List.mem_map.mpr ⟨kv2, h2, rfl⟩))
      | succ j =>
        have hj : j < pairs.length := by
          simpa using hi
        exact ih ga hfold2 hNodup2 j hj

theorem pkgKeyStep_frame (yaml_dict : List Dict) (g g2 : Dict)
    (kk : String × String) (k : String)
    (h : pkgKeyStep yaml_dict g kk = .ok g2) (hk : k ≠ kk.2) :
    lookupD g2 k = lookupD g k := by
  cases hc : pyContains ((chainLookup yaml_dict kk.1).getD (.dict [])) kk.2 with
  | error e =>
    simp only [pkgKeyStep, hc] at h
    cases h
  | ok present =>
    cases present with
    | false =>
      simp only [pkgKeyStep, hc, Bool.false_eq_true, if_false, Except.ok.injEq] at h
      rw [← h]
    | true =>
      cases hsub : pySubscript ((chainLookup yaml_dict kk.1).getD (.dict [])) kk.2 with
      | error e =>
        simp only [pkgKeyStep, hc, if_true, hsub] at h
        cases h
      | ok v =>
        simp only [pkgKeyStep, hc, if_true, hsub, Except.ok.injEq] at h
        rw [← h]
        exact lookupD_setKey_ne _ _ _ _ hk

theorem pkgFold_frame (yaml_dict : List Dict) (kks : List (String × String))
    (g g2 : Dict) (k : String)
    (h : kks.foldlM (pkgKeyStep yaml_dict) g = .ok g2)
    (hk : ∀ kk ∈ kks, k ≠ kk.2) :
    lookupD g2 k = lookupD g k := by
  induction kks generalizing g with
  | nil =>
    cases h
    rfl
  | cons kk kks ih =>
    rw [List.foldlM_cons] at h
    cases hstep : pkgKeyStep yaml_dict g kk with
    | error pe =>
      rw [hstep] at h
      simp [Bind.bind, Except.bind] at h
    | ok ga =>
      rw [hstep] at h
      have h2 : kks.foldlM (pkgKeyStep yaml_dict) ga = .ok g2 := by
        simpa [Bind.bind, Except.bind] using h
      rw [ih ga h2 (fun kk2 hm => hk kk2 (List.mem_cons_of_mem _ hm))]
      exact pkgKeyStep_frame yaml_dict g ga kk k hstep (hk kk (by simp))

theorem sourceStep_frame (st st2 : Dict × List String) (sv : PyVal) (k : String)
    (h : sourceStep st sv = .ok st2) (hk : k ≠ "url") :
    lookupD st2.1 k = lookupD st.1 k := by
  cases sv with
  | dict sd =>
    simp only [sourceStep, Except.ok.injEq] at h
    rw [← h]
    cases hc : !pyTruthy (getD st.1 "url" PyVal.none) with
    | false =>
      rw [if_neg (by simp)]
    | true =>
      rw [if_pos rfl]
      exact lookupD_setKey_ne _ _ _ _ hk
  | none => simp [sourceStep] at h
  | bool b => simp [sourceStep] at h
  | int n => simp [sourceStep] at h
  | str s2 => simp [sourceStep] at h
  | list l => simp [sourceStep] at h
  | strset ss => simp [sourceStep] at h
  | reqdict rd => simp [sourceStep] at h

theorem sourceFold_frame (entries : List PyVal) (st st2 : Dict × List String)
    (k : String) (h : entries.foldlM sourceStep st = .ok st2)
    (hk : k ≠ "url") : lookupD st2.1 k = lookupD st.1 k := by
  induction entries generalizing st with
  | nil =>
    cases h
    rfl
  | cons sv entries ih =>
    rw [List.foldlM_cons] at h
    cases hstep : sourceStep st sv with
    | error pe =>
      rw [hstep] at h
      simp [Bind.bind, Except.bind] at h
    | ok sta =>
      rw [hstep] at h
      have h2 : entries.foldlM sourceStep sta = .ok st2 := by
        simpa [Bind.bind, Except.bind] using h
      rw [ih sta h2]
      exact sourceStep_frame st sta sv k hstep hk

theorem restStage_frame (yaml_dict : List Dict) (merged g r : Dict)
    (h : restStage yaml_dict merged g = .ok r) (k : String)
    (h1 : k ≠ "outputs_names") (h2 : k ≠ "req") (h3 : k ≠ "name")
    (h4 : k ≠ "version") (h5 : k ≠ "url") (h6 : k ≠ "hash_type") :
    lookupD r k = lookupD g k := by
  cases hon : computeOutputsNames yaml_dict merged g with
  | error pe =>
    simp only [restStage, hon] at h
    cases h
  | ok names =>
    simp only [restStage, hon] at h
    cases hgr : _get_requirements merged true true true true Option.none with
    | error e =>
      simp only [hgr] at h
      cases h
    | ok req =>
      simp only [hgr] at h
      cases hpk : [("package", "name"), ("package", "version")].foldlM
          (pkgKeyStep yaml_dict)
          (setKey (setKey g "outputs_names" (.strset names)) "req" (.strset req)) with
      | error pe =>
        rw [hpk] at h
        cases h
      | ok g3 =>
        rw [hpk] at h
        have hbase : lookupD g3 k = lookupD g k := by
          rw [pkgFold_frame yaml_dict _ _ g3 k hpk ?_]
          · rw [lookupD_setKey_ne _ _ _ _ h2, lookupD_setKey_ne _ _ _ _ h1]
          · intro kk hm
            rcases List.mem_cons.mp hm with rfl | hm2
            · exact h3
            · rcases List.mem_cons.mp hm2 with rfl | hm3
              · exact h4
              · cases hm3
        have hdel : lookupD (delKey (delKey g3 "url") "hash_type") k = lookupD g k := by
          rw [lookupD_delKey_ne _ _ _ h6, lookupD_delKey_ne _ _ _ h5]
          exact hbase
        cases hs0 : (chainLookup yaml_dict "source").getD (.list []) with
        | dict d =>
          simp only [hs0] at h
          cases hsf : [PyVal.dict d].foldlM sourceStep
              (delKey (delKey g3 "url") "hash_type", ([] : List String)) with
          | error pe =>
            rw [hsf] at h
            cases h
          | ok st =>
            rw [hsf] at h
            simp only [Except.ok.injEq] at h
            have hfr := sourceFold_frame _ _ _ k hsf h5
            cases hmax : maxStrList (st.2.filter
                (fun k2 => hashlib_algorithms_available.contains k2)) with
            | some k2 =>
              rw [hmax] at h
              rw [← h, lookupD_setKey_ne _ _ _ _ h6, hfr]
              exact hdel
            | none =>
              rw [hmax] at h
              rw [← h, hfr]
              exact hdel
        | list xs =>
          simp only [hs0] at h
          cases hsf : xs.foldlM sourceStep
              (delKey (delKey g3 "url") "hash_type", ([] : List String)) with
          | error pe =>
            rw [hsf] at h
            cases h
          | ok st =>
            rw [hsf] at h
            simp only [Except.ok.injEq] at h
            have hfr := sourceFold_frame _ _ _ k hsf h5
            cases hmax : maxStrList (st.2.filter
                (fun k2 => hashlib_algorithms_available.contains k2)) with
            | some k2 =>
              rw [hmax] at h
              rw [← h, lookupD_setKey_ne _ _ _ _ h6, hfr]
              exact hdel
            | none =>
              rw [hmax] at h
              rw [← h, hfr]
              exact hdel
        | none =>
          simp only [hs0] at h
          cases h
        | bool b =>
          simp only [hs0] at h
          cases h
        | int n =>
          simp only [hs0] at h
          cases h
        | str s2 =>
          simp only [hs0] at h
          cases h
        | strset ss =>
          simp only [hs0] at h
          cases h
        | reqdict rd =>
          simp only [hs0] at h
          cases h

theorem extract_requirements_shape (d : Dict) (bm : Option (Finset String))
    (ext : List (String × Finset String) × List (String × Finset String) × Bool)
    (h : _extract_requirements d bm = .ok ext) :
    ∃ fin : List (String × List String),
      ext.1 = fin.map (fun kv => (kv.1, kv.2.toFinset)) ∧
      ext.2.1 = fin.map (fun kv => (kv.1, (kv.2.map pin_name).toFinset)) := by
  simp only [_extract_requirements, Bind.bind, Except.bind] at h
  cases hm : extractMetas d bm with
  | error e =>
    simp only [hm] at h
    cases h
  | ok metas =>
    simp only [hm] at h
    cases hst : metas.foldlM extractBlock ([], false) with
    | error e =>
      simp only [hst] at h
      cases h
    | ok st =>
      simp only [hst] at h
      cases hfin : st.1.mapM finalizeEntry with
      | error e =>
        simp only [hfin] at h
        cases h
      | ok fin =>
        simp only [hfin, Except.ok.injEq] at h
        subst h
        exact ⟨fin, rfl, rfl⟩

/-- C10: in the record produced by `populate_feedstock_attributes` (its
post-render tail `populate_after_render`, lines 340-355), the
`total_requirements` key holds the raw bundle extracted from the merged
view (original requirement strings, pins retained), `requirements` holds
the pin-stripped bundle of the very same extraction, and every per-variant
`{plat}_{arch}_requirements` key holds only the pin-stripped bundle of that
variant's extraction (the raw bundle and per-variant strong-exports flag
are discarded), while `strong_exports` holds the flag computed from the
merged view only. -/
theorem populate_requirements_layout (name : String) (g0 : Dict)
    (pa : List (List String)) (vys : List Dict) (r : Dict)
    (hpop : populate_after_render name g0 pa vys = .ok r)
    (hne : chainIsEmpty ((stableSort (fun x y => listStrLE x.1 y.1)
      (pa.zip vys)).map Prod.snd) = false)
    (hlen : ∀ kv ∈ pa.zip vys, kv.1.length = 2)
    (hNodup : ((pa.zip vys).map (fun kv => String.intercalate "_" kv.1)).Nodup) :
    ∃ extM, _extract_requirements
        (chainMerge ((stableSort (fun x y => listStrLE x.1 y.1)
          (pa.zip vys)).map Prod.snd)) (BOOTSTRAP_MAPPINGS_get name) = .ok extM ∧
      lookupD r "total_requirements" = some (.reqdict extM.1) ∧
      lookupD r "requirements" = some (.reqdict extM.2.1) ∧
      lookupD r "strong_exports" = some (.bool extM.2.2) ∧
      (∃ fin : List (String × List String),
        extM.1 = fin.map (fun kv => (kv.1, kv.2.toFinset)) ∧
        extM.2.1 = fin.map (fun kv => (kv.1, (kv.2.map pin_name).toFinset))) ∧
      ∀ i (hi : i < (pa.zip vys).length),
        ∃ ext, _extract_requirements ((pa.zip vys).get ⟨i, hi⟩).2
            (BOOTSTRAP_MAPPINGS_get name) = .ok ext ∧
          lookupD r (String.intercalate "_" ((pa.zip vys).get ⟨i, hi⟩).1 ++
            "_requirements") = some (.reqdict ext.2.1) := by
  simp only [populate_after_render, Bind.bind, Except.bind, hne,
    Bool.false_eq_true, if_false] at hpop
  cases hfold : (pa.zip vys).foldlM (variantStep name)
      (setKey (setKey g0 "platforms"
        (.list (pa.map (fun k => .str (String.intercalate "_" k)))))
        "meta_yaml" (.dict (chainMerge ((stableSort (fun x y => listStrLE x.1 y.1)
          (pa.zip vys)).map Prod.snd)))) with
  | error pe =>
    simp only [hfold] at hpop
    cases hpop
  | ok g1 =>
    simp only [hfold] at hpop
    cases hext : _extract_requirements
        (chainMerge ((stableSort (fun x y => listStrLE x.1 y.1)
          (pa.zip vys)).map Prod.snd)) (BOOTSTRAP_MAPPINGS_get name) with
    | error e =>
      simp only [hext] at hpop
      cases hpop
    | ok extM =>
      simp only [hext] at hpop
      refine ⟨extM, rfl, ?_, ?_, ?_, extract_requirements_shape _ _ _ hext, ?_⟩
      · rw [restStage_frame _ _ _ _ hpop "total_requirements" (by decide)
          (by decide) (by decide) (by decide) (by decide) (by decide)]
        rw [lookupD_setKey_ne _ _ _ _ (by decide),
          lookupD_setKey_ne _ _ _ _ (by decide), lookupD_setKey_self]
      · rw [restStage_frame _ _ _ _ hpop "requirements" (by decide)
          (by decide) (by decide) (by decide) (by decide) (by decide)]
        rw [lookupD_setKey_ne _ _ _ _ (by decide), lookupD_setKey_self]
      · rw [restStage_frame _ _ _ _ hpop "strong_exports" (by decide)
          (by decide) (by decide) (by decide) (by decide) (by decide)]
        rw [lookupD_setKey_self]
      · intro i hi
        obtain ⟨ext, hexti, hlook⟩ :=
          variantFold_lookup name (pa.zip vys) _ g1 hfold hNodup i hi
        refine ⟨ext, hexti, ?_⟩
        have hkey_ends : pyEndsWith (String.intercalate "_"
            ((pa.zip vys).get ⟨i, hi⟩).1 ++ "_requirements") "_requirements" =
            true := pyEndsWith_append _ _
        rw [restStage_frame _ _ _ _ hpop _
          (ne_of_pyEndsWith _ _ "outputs_names" hkey_ends (by decide))
          (ne_of_pyEndsWith _ _ "req" hkey_ends (by decide))
          (ne_of_pyEndsWith _ _ "name" hkey_ends (by decide))
          (ne_of_pyEndsWith _ _ "version" hkey_ends (by decide))
          (ne_of_pyEndsWith _ _ "url" hkey_ends (by decide))
          (ne_of_pyEndsWith _ _ "hash_type" hkey_ends (by decide))]
        have htot : String.intercalate "_" ((pa.zip vys).get ⟨i, hi⟩).1 ++
            "_requirements" ≠ "total_requirements" := by
          have hl2 := hlen _ (List.mem_iff_get.mpr ⟨⟨i, hi⟩, rfl⟩)
          obtain ⟨p, a, hpa⟩ : ∃ p a, ((pa.zip vys).get ⟨i, hi⟩).1 = [p, a] := by
            cases hx : ((pa.zip vys).get ⟨i, hi⟩).1 with
            | nil =>
              rw [hx] at hl2
              simp at hl2
            | cons p rest =>
              cases rest with
              | nil =>
                rw [hx] at hl2
                simp at hl2
              | cons a rest2 =>
                cases rest2 with
                | nil => exact ⟨p, a, rfl⟩
                | cons q rest3 =>
                  rw [hx] at hl2
                  simp at hl2
          rw [hpa]
          have hic : String.intercalate "_" [p, a] = p ++ "_" ++ a := rfl
          rw [hic]
          exact varkey_ne_total p a
        rw [lookupD_setKey_ne _ _ _ _
            (ne_of_pyEndsWith _ _ "strong_exports" hkey_ends (by decide)),
          lookupD_setKey_ne _ _ _ _
            (ne_of_pyEndsWith _ _ "requirements" hkey_ends (by decide)),
          lookupD_setKey_ne _ _ _ _ htot]
        exact hlook

theorem populate_requirements_layout_witness :
    ∃ r, populate_after_render "pkg" [] [["linux", "64"]]
        [[("package", PyVal.dict [("name", PyVal.str "pkg"),
            ("version", PyVal.str "1.0")]),
          ("requirements", PyVal.dict
            [("run", PyVal.list [PyVal.str "numpy >=1.0"])])]] = .ok r ∧
      ∃ extM, _extract_requirements
          (chainMerge ((stableSort (fun x y => listStrLE x.1 y.1)
            ([["linux", "64"]].zip
              [[("package", PyVal.dict [("name", PyVal.str "pkg"),
                  ("version", PyVal.str "1.0")]),
                ("requirements", PyVal.dict
                  [("run", PyVal.list [PyVal.str "numpy >=1.0"])])]])).map
            Prod.snd)) (BOOTSTRAP_MAPPINGS_get "pkg") = .ok extM ∧
        lookupD r "total_requirements" = some (.reqdict extM.1) ∧
        lookupD r "requirements" = some (.reqdict extM.2.1) ∧
        lookupD r "strong_exports" = some (.bool extM.2.2) ∧
        (∃ fin : List (String × List String),
          extM.1 = fin.map (fun kv => (kv.1, kv.2.toFinset)) ∧
          extM.2.1 = fin.map (fun kv => (kv.1, (kv.2.map pin_name).toFinset))) ∧
        ∀ i (hi : i < (([["linux", "64"]] : List (List String)).zip
            [[("package", PyVal.dict [("name", PyVal.str "pkg"),
                ("version", PyVal.str "1.0")]),
              ("requirements", PyVal.dict
                [("run", PyVal.list [PyVal.str "numpy >=1.0"])])]]).length),
          ∃ ext, _extract_requirements
              ((([["linux", "64"]] : List (List String)).zip
                [[("package", PyVal.dict [("name", PyVal.str "pkg"),
                    ("version", PyVal.str "1.0")]),
                  ("requirements", PyVal.dict
                    [("run", PyVal.list [PyVal.str "numpy >=1.0"])])]]).get
                ⟨i, hi⟩).2 (BOOTSTRAP_MAPPINGS_get "pkg") = .ok ext ∧
            lookupD r (String.intercalate "_"
              ((([["linux", "64"]] : List (List String)).zip
                [[("package", PyVal.dict [("name", PyVal.str "pkg"),
                    ("version", PyVal.str "1.0")]),
                  ("requirements", PyVal.dict
                    [("run", PyVal.list [PyVal.str "numpy >=1.0"])])]]).get
                ⟨i, hi⟩).1 ++ "_requirements") = some (.reqdict ext.2.1) := by
  obtain ⟨r, hr⟩ : ∃ r, populate_after_render "pkg" [] [["linux", "64"]]
      [[("package", PyVal.dict [("name", PyVal.str "pkg"),
          ("version", PyVal.str "1.0")]),
        ("requirements", PyVal.dict
          [("run", PyVal.list [PyVal.str "numpy >=1.0"])])]] = .ok r := ⟨_, rfl⟩
  exact ⟨r, hr, populate_requirements_layout "pkg" [] [["linux", "64"]]
    [[("package", PyVal.dict [("name", PyVal.str "pkg"),
        ("version", PyVal.str "1.0")]),
      ("requirements", PyVal.dict
        [("run", PyVal.list [PyVal.str "numpy >=1.0"])])]] r hr
    (by decide) (by decide) (by decide)⟩

end CfScripts
